import Mathlib

/-!
# Verification of the kernel-sync lock library

Shallow embedding of the `kernel-sync` synchronization primitives and proofs
about them.

* `RcuInner` models the RCU cell: the `Inner`/`List` pair of `src/arcrcu.rs` as it
  is used by `src/rculock.rs`. `src/arcrcu.rs` in the tree declares the earlier
  single-counter variant of `Inner` (its reclamation count check is commented
  out and its scalar tally is dead); the `Inner` that `rculock.rs` actually
  indexes carries the two-slot `borrow_count` array and the
  `current_borrow_count_index` selector described in the specification, so
  those two fields are modelled from the spec while every operation body
  (`deref`, `try_update`, `clean`, `Guard::drop`, and all of `rculock.rs`) is
  translated from the source.
* The protected value is specialised to `Nat`, matching the integer scenarios
  of the tests; successor nodes live in an explicit arena (`heap`) so that
  reclamation and dangling pointers are observable.
* Sequential functions model each operation for single-threaded reasoning;
  an interleaved small-step system (`stepEv`/`run`) models concurrent
  executions for the concurrency claims.
-/

/-- Observable events: the `LockAction` hooks and reclamation of a successor
node at arena address `a`. -/
inductive LockEvent
  | beforeLock
  | afterLock
  | freeNode (a : Nat)
  deriving DecidableEq, Repr

/-- A heap-owned successor node (`List<T>` in `src/arcrcu.rs`): its value, its
own `next` pointer (an arena address), and whether the allocation is still
live.  Contents survive deallocation in the model so that a dangling reader's
observation stays meaningful. -/
structure HNode where
  val : Nat
  nxt : Option Nat
  alive : Bool
  deriving DecidableEq, Repr

/-- The shared RCU cell.  `value`/`next` are the `List<T>` head of
`src/arcrcu.rs` (`next = none` models a null pointer, `some a` an arena
address), `amWriting` is `am_writing`, and the two borrow-count slots plus
`currentBorrowCountIndex` are the double-buffered reader tally that
`src/rculock.rs` indexes (modelled from the spec, see the file header). -/
structure RcuInner where
  value : Nat
  next : Option Nat
  amWriting : Bool
  borrowCount0 : Nat
  borrowCount1 : Nat
  currentBorrowCountIndex : Nat
  heap : List HNode
  deriving DecidableEq, Repr

/-- Read slot `i` of the borrow-count array (`borrow_count[i]`). -/
def borrowCountGet (s : RcuInner) (i : Nat) : Nat :=
  if i = 0 then s.borrowCount0 else s.borrowCount1

/-- `borrow_count[i].fetch_add(1)`. -/
def borrowCountAdd (s : RcuInner) (i : Nat) : RcuInner :=
  if i = 0 then { s with borrowCount0 := s.borrowCount0 + 1 }
  else { s with borrowCount1 := s.borrowCount1 + 1 }

/-- `borrow_count[i].fetch_sub(1)` (counts never underflow in the usage the
library permits, so truncated subtraction agrees with wrapping). -/
def borrowCountSub (s : RcuInner) (i : Nat) : RcuInner :=
  if i = 0 then { s with borrowCount0 := s.borrowCount0 - 1 }
  else { s with borrowCount1 := s.borrowCount1 - 1 }

/-- Value stored in the node at arena address `a` (dereferencing the raw
pointer; an address outside the arena never occurs in executions the lock
constructs). -/
def nodeVal (heap : List HNode) (a : Nat) : Nat :=
  match heap[a]? with
  | some nd => nd.val
  | none => 0

/-- The version-selection rule of `ArcRcu::deref` (src/arcrcu.rs lines 57-72):
if `next` is null the current version is `value`, otherwise it is
`(*next).value`. -/
def visibleValue (s : RcuInner) : Nat :=
  match s.next with
  | none => s.value
  | some a => nodeVal s.heap a

/-- The reference a read guard captures: either the primary `value` slot or a
node in the arena. -/
inductive VPtr
  | inValue
  | inNode (a : Nat)
  deriving DecidableEq, Repr

/-- Where `ArcRcu::deref` points on the current state. -/
def derefPtr (s : RcuInner) : VPtr :=
  match s.next with
  | none => .inValue
  | some a => .inNode a

/-- Dereference a captured reference against the current memory. -/
def readPtr (s : RcuInner) : VPtr → Nat
  | .inValue => s.value
  | .inNode a => nodeVal s.heap a

/-- `RcuLockReadGuard`: the captured data reference and the remembered
borrow-count slot. -/
structure RcuReadGuard where
  dataPtr : VPtr
  borrowCountIndex : Nat
  deriving DecidableEq, Repr

/-- The inner `arcrcu::Guard`'s pending node (`Guard.list`): the working copy
of the value and the snapshot of `next` taken by `try_update`.  (In the source
the field sits inside an `Option` purely so `Drop` can move out of it.) -/
structure ArcGuard where
  val : Nat
  nxt : Option Nat
  deriving DecidableEq, Repr

/-- `RcuLockWriteGuard`: `data` is the `Option<Guard>` of the source (whose
`None` arm is the panic branch of `Deref`/`DerefMut`), plus the remembered
borrow-count slot. -/
structure RcuWriteGuard where
  data : Option ArcGuard
  borrowCountIndex : Nat
  deriving DecidableEq, Repr

/-- `RcuLock::read` (src/rculock.rs lines 53-69): `before_lock`, load the
current index, bump that slot, capture the data reference. -/
def rcuRead (s : RcuInner) : RcuReadGuard × RcuInner × List LockEvent :=
  let index := s.currentBorrowCountIndex
  let s1 := borrowCountAdd s index
  (⟨derefPtr s1, index⟩, s1, [.beforeLock])

/-- `RcuLockReadGuard::drop` (src/rculock.rs lines 141-148): decrement the
remembered slot, `after_lock`. -/
def rcuReadGuardDrop (s : RcuInner) (g : RcuReadGuard) : RcuInner × List LockEvent :=
  (borrowCountSub s g.borrowCountIndex, [.afterLock])

/-- `ArcRcu::try_update` (src/arcrcu.rs lines 107-120): swap `am_writing`;
on success build the pending node from a clone of the visible value and a
snapshot of `next`. -/
def tryUpdate (s : RcuInner) : Option ArcGuard × RcuInner :=
  if s.amWriting then (none, s)
  else (some ⟨visibleValue s, s.next⟩, { s with amWriting := true })

/-- `RcuLock::try_write` (src/rculock.rs lines 98-122): `before_lock`; on a
losing swap call `after_lock` and return none; on success load the index, bump
that slot and wrap the inner guard. -/
def rcuTryWrite (s : RcuInner) : Option RcuWriteGuard × RcuInner × List LockEvent :=
  match tryUpdate s with
  | (some g, s1) =>
      let index := s1.currentBorrowCountIndex
      (some ⟨some g, index⟩, borrowCountAdd s1 index, [.beforeLock])
  | (none, s1) => (none, s1, [.beforeLock, .afterLock])

/-- The retry loop of `RcuLock::write` (src/rculock.rs lines 71-96), with fuel
standing in for the unbounded spin; the hooks are not re-invoked on retries. -/
def rcuWriteLoop : Nat → RcuInner → Option (RcuWriteGuard × RcuInner)
  | 0, _ => none
  | fuel + 1, s =>
      match tryUpdate s with
      | (some g, s1) =>
          let index := s1.currentBorrowCountIndex
          some (⟨some g, index⟩, borrowCountAdd s1 index)
      | (none, s1) => rcuWriteLoop fuel s1

/-- `RcuLock::write`: `before_lock` once, then the retry loop. -/
def rcuWrite (fuel : Nat) (s : RcuInner) :
    Option (RcuWriteGuard × RcuInner) × List LockEvent :=
  (rcuWriteLoop fuel s, [.beforeLock])

/-- `Deref` of the write guard (src/rculock.rs lines 158-168): the `None` arm
is the `panic!` branch, modelled as `none`. -/
def rcuWriteGuardDeref (g : RcuWriteGuard) : Option Nat :=
  g.data.map ArcGuard.val

/-- A store through `DerefMut` of the write guard: overwrite the working
copy.  The `None` arm would be the panic branch; the map leaves it `none`. -/
def rcuWriteGuardSet (g : RcuWriteGuard) (v : Nat) : RcuWriteGuard :=
  { g with data := g.data.map fun ag => { ag with val := v } }

/-- `arcrcu::Guard::drop` (src/arcrcu.rs lines 184-193): box the pending node
and publish it into `next` with release ordering.  The fresh node is appended
to the arena, so its address is the old arena length. -/
def publishNext (s : RcuInner) (ag : ArcGuard) : RcuInner :=
  { s with heap := s.heap ++ [{ val := ag.val, nxt := ag.nxt, alive := true }],
           next := some s.heap.length }

/-- `current_borrow_count_index.fetch_xor(1)` (src/rculock.rs lines 190-193). -/
def toggleIndex (s : RcuInner) : RcuInner :=
  { s with currentBorrowCountIndex := Nat.xor s.currentBorrowCountIndex 1 }

/-- `ArcRcu::clean` (src/arcrcu.rs lines 121-158), as shipped: the borrow-count
test is commented out, so the successor is promoted whenever `next` is
non-null.  The three raw copies amount to swapping `value` with
`(*next).value`; the node (holding the old datum) is then freed together with
its own `next` chain, and `next` becomes null.  A dangling `next` address
cannot arise in executions the lock constructs; the model leaves the state
unchanged in that case. -/
def cleanVersion (s : RcuInner) : RcuInner × List LockEvent :=
  match s.next with
  | none => (s, [])
  | some a =>
      match s.heap[a]? with
      | none => (s, [])
      | some nd =>
          let heap1 := s.heap.set a { nd with val := s.value, alive := false }
          let heap2 :=
            match nd.nxt with
            | some b =>
                match heap1[b]? with
                | some nb => heap1.set b { nb with alive := false }
                | none => heap1
            | none => heap1
          let ev :=
            match nd.nxt with
            | some b => [LockEvent.freeNode a, LockEvent.freeNode b]
            | none => [LockEvent.freeNode a]
          ({ s with value := nd.val, next := none, heap := heap2 }, ev)

/-- `am_writing.store(false)` (src/rculock.rs line 205). -/
def clearAmWriting (s : RcuInner) : RcuInner :=
  { s with amWriting := false }

/-- `RcuLockWriteGuard::drop` (src/rculock.rs lines 182-208) as one
single-threaded function, translated statement by statement: unwrap and drop
the inner guard (publishing the node; `unwrap` on `None` is the panic,
modelled as `none`), toggle the index, decrement the remembered slot, spin
until that slot drains (in a single-threaded run the spin either passes at
once or never, modelled as `none`), clean, clear `am_writing`, `after_lock`. -/
def rcuWriteGuardDrop (s : RcuInner) (g : RcuWriteGuard) :
    Option (RcuInner × List LockEvent) :=
  match g.data with
  | none => none
  | some ag =>
      let sPub : RcuInner :=
        { s with heap := s.heap ++ [{ val := ag.val, nxt := ag.nxt, alive := true }],
                 next := some s.heap.length }
      let sTog : RcuInner :=
        { sPub with currentBorrowCountIndex := Nat.xor sPub.currentBorrowCountIndex 1 }
      let sDec : RcuInner :=
        if g.borrowCountIndex = 0 then { sTog with borrowCount0 := sTog.borrowCount0 - 1 }
        else { sTog with borrowCount1 := sTog.borrowCount1 - 1 }
      if (if g.borrowCountIndex = 0 then sDec.borrowCount0 else sDec.borrowCount1) = 0 then
        match sDec.next with
        | none => some ({ sDec with amWriting := false }, [.afterLock])
        | some a =>
            match sDec.heap[a]? with
            | none => some ({ sDec with amWriting := false }, [.afterLock])
            | some nd =>
                let heap1 := sDec.heap.set a { nd with val := sDec.value, alive := false }
                let heap2 :=
                  match nd.nxt with
                  | some b =>
                      match heap1[b]? with
                      | some nb => heap1.set b { nb with alive := false }
                      | none => heap1
                  | none => heap1
                let ev :=
                  match nd.nxt with
                  | some b => [LockEvent.freeNode a, LockEvent.freeNode b]
                  | none => [LockEvent.freeNode a]
                some ({ sDec with value := nd.val, next := none, heap := heap2,
                                  amWriting := false },
                      ev ++ [.afterLock])
      else none

/-! ## SpinMutex (src/spin.rs) -/

/-- State of a `SpinMutex<Nat>`: the test-and-set flag and the protected
datum. -/
structure SpinState where
  locked : Bool
  data : Nat
  deriving DecidableEq, Repr

/-- `SpinMutex::lock` (src/spin.rs lines 117-135) for a single-threaded run:
`before_lock`, then the compare-and-set loop — it succeeds at once when the
flag is clear and otherwise never returns (`none`). -/
def spinLock (s : SpinState) : Option SpinState × List LockEvent :=
  if s.locked then (none, [.beforeLock])
  else (some { s with locked := true }, [.beforeLock])

/-- `SpinMutex::try_lock` (src/spin.rs lines 150-167): one compare-and-set
attempt; on failure `after_lock` is called before returning none. -/
def spinTryLock (s : SpinState) : Option SpinState × List LockEvent :=
  if s.locked then (none, [.beforeLock, .afterLock])
  else (some { s with locked := true }, [.beforeLock])

/-- `SpinMutexGuard::drop` (src/spin.rs lines 236-242): release the flag and
call `after_lock`. -/
def spinGuardDrop (s : SpinState) : SpinState × List LockEvent :=
  ({ s with locked := false }, [.afterLock])

/-! ## TicketMutex (src/ticket.rs) -/

/-- State of a `TicketMutex<Nat>`: the two counters and the protected datum. -/
structure TicketState where
  nextTicket : Nat
  nextServing : Nat
  data : Nat
  deriving DecidableEq, Repr

/-- `TicketMutex::lock` (src/ticket.rs lines 127-146) for a single-threaded
run: `before_lock`, claim a ticket with `fetch_add`, then spin until
`next_serving` equals the claimed ticket — immediate success or divergence.
On success the claimed ticket is returned with the new state. -/
def ticketLock (s : TicketState) : Option (Nat × TicketState) × List LockEvent :=
  let ticket := s.nextTicket
  let s1 := { s with nextTicket := s.nextTicket + 1 }
  if s1.nextServing = ticket then (some (ticket, s1), [.beforeLock])
  else (none, [.beforeLock])

/-- `TicketMutex::try_lock` (src/ticket.rs lines 161-188): one `fetch_update`
on `next_ticket` that succeeds only when `next_serving == next_ticket`; on
failure `after_lock` is called before returning none. -/
def ticketTryLock (s : TicketState) : Option (Nat × TicketState) × List LockEvent :=
  if s.nextServing = s.nextTicket then
    (some (s.nextTicket, { s with nextTicket := s.nextTicket + 1 }), [.beforeLock])
  else (none, [.beforeLock, .afterLock])

/-- `TicketMutexGuard::drop` (src/ticket.rs lines 235-242): store
`ticket + 1` into `next_serving` and call `after_lock`. -/
def ticketGuardDrop (s : TicketState) (ticket : Nat) : TicketState × List LockEvent :=
  ({ s with nextServing := ticket + 1 }, [.afterLock])

/-- The abstract multi-threaded state of a `TicketMutex`: the two counters
plus the multiset of claimed-but-unreleased tickets (one per live locking
attempt or guard). -/
structure TicketSys where
  nextTicket : Nat
  nextServing : Nat
  claimed : List Nat
  deriving DecidableEq, Repr

/-- States reachable from `TicketMutex::new` by the atomic effects of `lock`
(the ticket claim), `try_lock` (both outcomes) and guard release, with
releases restricted to the admitted holder — the misuse-free discipline. -/
inductive TicketReach : TicketSys → Prop
  | init : TicketReach ⟨0, 0, []⟩
  | lockClaim (s : TicketSys) : TicketReach s →
      TicketReach ⟨s.nextTicket + 1, s.nextServing, s.nextTicket :: s.claimed⟩
  | tryLockSucc (s : TicketSys) : TicketReach s →
      s.nextServing = s.nextTicket →
      TicketReach ⟨s.nextTicket + 1, s.nextServing, s.nextTicket :: s.claimed⟩
  | tryLockFail (s : TicketSys) : TicketReach s →
      s.nextServing ≠ s.nextTicket → TicketReach s
  | guardRelease (s : TicketSys) (t : Nat) : TicketReach s →
      t ∈ s.claimed → s.nextServing = t →
      TicketReach ⟨s.nextTicket, t + 1, s.claimed.erase t⟩

/-! ## Interleaved execution of the RcuLock

Each thread runs either the writer loop of the basic test
(`for _ in 0..K { let mut g = lock.write(); *g += 1; }`, src/tests/rculock_test.rs)
or a single read-hold-release, decomposed into its atomic operations exactly
as they appear in src/rculock.rs and src/arcrcu.rs. -/

/-- Program counters: one per atomic operation of the writer loop and of the
reader. -/
inductive WPC
  | wBefore    -- next iteration: call before_lock (or finish when none left)
  | wAcquire   -- am_writing.swap(true) + clone/snapshot (ArcRcu::try_update)
  | wLoadIdx   -- load current_borrow_count_index
  | wIncr      -- borrow_count[index].fetch_add(1)
  | wMutate    -- *guard += 1 through DerefMut
  | wPublish   -- drop of the inner Guard: publish the node into next
  | wToggle    -- current_borrow_count_index.fetch_xor(1)
  | wDecr      -- borrow_count[index].fetch_sub(1)
  | wDrain     -- spin while borrow_count[index] > 0
  | wClean     -- ArcRcu::clean
  | wClearW    -- am_writing.store(false); after_lock
  | wDone
  | rBefore    -- reader: before_lock
  | rLoadIdx   -- load current_borrow_count_index
  | rIncr      -- borrow_count[index].fetch_add(1)
  | rMkPtr     -- capture the data reference (ArcRcu::deref)
  | rHold      -- guard held; next step releases it
  | rDone
  deriving DecidableEq, Repr

/-- Per-thread state: program counter, remaining writer iterations, the
writer's working copy `w` and snapshot `snap` (the pending node), the
remembered borrow-count slot `idx`, and the reader's captured reference. -/
structure Thread where
  pc : WPC
  rem : Nat
  w : Nat
  snap : Option Nat
  idx : Nat
  ptr : VPtr
  deriving DecidableEq, Repr

/-- A system: the shared cell and `n` threads. -/
structure Sys (n : Nat) where
  sh : RcuInner
  th : Fin n → Thread

/-- Replace thread `u`. -/
def setTh {n : Nat} (s : Sys n) (u : Fin n) (t : Thread) : Sys n :=
  { s with th := Function.update s.th u t }

/-- One atomic step of thread `u`, with the events it emits.  Blocked spins
(`am_writing` held, or a non-drained slot) leave the state unchanged. -/
def stepEv {n : Nat} (s : Sys n) (u : Fin n) : Sys n × List LockEvent :=
  let t := s.th u
  match t.pc with
  | .wBefore =>
      if t.rem = 0 then (setTh s u { t with pc := .wDone }, [])
      else (setTh s u { t with pc := .wAcquire }, [.beforeLock])
  | .wAcquire =>
      if s.sh.amWriting then (s, [])
      else ({ sh := { s.sh with amWriting := true },
              th := Function.update s.th u
                { t with pc := .wLoadIdx, w := visibleValue s.sh, snap := s.sh.next } }, [])
  | .wLoadIdx =>
      (setTh s u { t with pc := .wIncr, idx := s.sh.currentBorrowCountIndex }, [])
  | .wIncr =>
      ({ sh := borrowCountAdd s.sh t.idx,
         th := Function.update s.th u { t with pc := .wMutate } }, [])
  | .wMutate =>
      (setTh s u { t with pc := .wPublish, w := t.w + 1 }, [])
  | .wPublish =>
      ({ sh := publishNext s.sh ⟨t.w, t.snap⟩,
         th := Function.update s.th u { t with pc := .wToggle } }, [])
  | .wToggle =>
      ({ sh := toggleIndex s.sh,
         th := Function.update s.th u { t with pc := .wDecr } }, [])
  | .wDecr =>
      ({ sh := borrowCountSub s.sh t.idx,
         th := Function.update s.th u { t with pc := .wDrain } }, [])
  | .wDrain =>
      if borrowCountGet s.sh t.idx = 0 then (setTh s u { t with pc := .wClean }, [])
      else (s, [])
  | .wClean =>
      let (sh2, ev) := cleanVersion s.sh
      ({ sh := sh2, th := Function.update s.th u { t with pc := .wClearW } }, ev)
  | .wClearW =>
      ({ sh := clearAmWriting s.sh,
         th := Function.update s.th u { t with pc := .wBefore, rem := t.rem - 1 } },
       [.afterLock])
  | .wDone => (s, [])
  | .rBefore => (setTh s u { t with pc := .rLoadIdx }, [.beforeLock])
  | .rLoadIdx =>
      (setTh s u { t with pc := .rIncr, idx := s.sh.currentBorrowCountIndex }, [])
  | .rIncr =>
      ({ sh := borrowCountAdd s.sh t.idx,
         th := Function.update s.th u { t with pc := .rMkPtr } }, [])
  | .rMkPtr =>
      (setTh s u { t with pc := .rHold, ptr := derefPtr s.sh }, [])
  | .rHold =>
      ({ sh := borrowCountSub s.sh t.idx,
         th := Function.update s.th u { t with pc := .rDone } }, [.afterLock])
  | .rDone => (s, [])

/-- One step, discarding events. -/
def stepOf {n : Nat} (s : Sys n) (u : Fin n) : Sys n := (stepEv s u).1

/-- Run a schedule (a list of thread choices). -/
def run {n : Nat} (s : Sys n) : List (Fin n) → Sys n
  | [] => s
  | u :: rest => run (stepOf s u) rest

/-- `RcuLock::new 0`: value 0, null next, no writer, both slots zero, index
0, empty arena. -/
def initRcuInner : RcuInner :=
  { value := 0, next := none, amWriting := false,
    borrowCount0 := 0, borrowCount1 := 0, currentBorrowCountIndex := 0, heap := [] }

/-- A writer thread about to run `kk` iterations of the basic test's loop. -/
def initWriter (kk : Nat) : Thread :=
  { pc := .wBefore, rem := kk, w := 0, snap := none, idx := 0, ptr := .inValue }

/-- A reader thread about to acquire once. -/
def initReader : Thread :=
  { pc := .rBefore, rem := 0, w := 0, snap := none, idx := 0, ptr := .inValue }

/-- The basic test's system: `n` writers, `kk` iterations each, over
`RcuLock::new 0`. -/
def initSys (n kk : Nat) : Sys n :=
  { sh := initRcuInner, th := fun _ => initWriter kk }

/-! ## Invariant for writer-only executions (the basic test) -/

/-- Completed iterations, out of `kk` each, summed over all threads. -/
def totalTh {n : Nat} (kk : Nat) (th : Fin n → Thread) : Nat :=
  ∑ u : Fin n, (kk - (th u).rem)

/-- A thread that is outside its critical section: about to call
`before_lock`, spinning in `try_update`, or finished. -/
def writerInactive (t : Thread) : Prop :=
  t.pc = .wBefore ∨ (t.pc = .wAcquire ∧ 1 ≤ t.rem) ∨ (t.pc = .wDone ∧ t.rem = 0)

/-- Both borrow-count slots are zero. -/
def bcZero (s : RcuInner) : Prop :=
  s.borrowCount0 = 0 ∧ s.borrowCount1 = 0

/-- The idle cell: no writer, null next, drained slots. -/
def idleRcu (s : RcuInner) : Prop :=
  s.amWriting = false ∧ s.next = none ∧ bcZero s

/-- Exactly one count outstanding, in slot `i`. -/
def bcOnly (s : RcuInner) (i : Nat) : Prop :=
  (i = 0 ∨ i = 1) ∧ borrowCountGet s i = 1 ∧ borrowCountGet s (Nat.xor i 1) = 0

/-- A published successor node holding `value + 1` with a null snapshot. -/
def pendingNode (s : RcuInner) : Prop :=
  ∃ a, s.next = some a ∧ s.heap[a]? = some ⟨s.value + 1, none, true⟩

/-- The in-cycle writer: what the shared cell and the thread's fields look
like at each program counter of the critical section. -/
def writerActive (sh : RcuInner) (t : Thread) : Prop :=
  sh.amWriting = true ∧ 1 ≤ t.rem ∧ t.snap = none ∧
  match t.pc with
  | .wLoadIdx => sh.next = none ∧ bcZero sh ∧ t.w = sh.value
  | .wIncr => sh.next = none ∧ bcZero sh ∧ t.w = sh.value ∧
      t.idx = sh.currentBorrowCountIndex ∧ (t.idx = 0 ∨ t.idx = 1)
  | .wMutate => sh.next = none ∧ bcOnly sh t.idx ∧ t.w = sh.value
  | .wPublish => sh.next = none ∧ bcOnly sh t.idx ∧ t.w = sh.value + 1
  | .wToggle => pendingNode sh ∧ bcOnly sh t.idx
  | .wDecr => pendingNode sh ∧ bcOnly sh t.idx
  | .wDrain => pendingNode sh ∧ bcZero sh
  | .wClean => pendingNode sh ∧ bcZero sh
  | .wClearW => sh.next = none ∧ bcZero sh
  | _ => False

/-- Global invariant of the writer-only system: the index is a valid slot,
no thread owes more iterations than `kk`, and the system is either idle with
`value` equal to the completed-iteration count, or exactly one writer is
inside its critical section (with `value` one ahead right before the final
`am_writing` release). -/
def SysInv {n : Nat} (kk : Nat) (s : Sys n) : Prop :=
  (s.sh.currentBorrowCountIndex = 0 ∨ s.sh.currentBorrowCountIndex = 1) ∧
  (∀ u, (s.th u).rem ≤ kk) ∧
  (((∀ u, writerInactive (s.th u)) ∧ idleRcu s.sh ∧ s.sh.value = totalTh kk s.th) ∨
   (∃ j, writerActive s.sh (s.th j) ∧ (∀ u, u ≠ j → writerInactive (s.th u)) ∧
      s.sh.value = totalTh kk s.th + (if (s.th j).pc = .wClearW then 1 else 0)))

@[simp] theorem setTh_sh {n : Nat} (s : Sys n) (u : Fin n) (t : Thread) :
    (setTh s u t).sh = s.sh := rfl

@[simp] theorem setTh_th {n : Nat} (s : Sys n) (u : Fin n) (t : Thread) :
    (setTh s u t).th = Function.update s.th u t := rfl

/-- Updating one thread changes the completed-iteration sum by the change in
that thread's remaining count. -/
theorem totalTh_update {n : Nat} (kk : Nat) (th : Fin n → Thread) (u : Fin n)
    (t' : Thread) :
    totalTh kk (Function.update th u t') + (kk - (th u).rem)
      = totalTh kk th + (kk - t'.rem) := by
  unfold totalTh
  rw [← Finset.add_sum_erase _ (fun v => kk - (Function.update th u t' v).rem)
      (Finset.mem_univ u),
    ← Finset.add_sum_erase _ (fun v => kk - (th v).rem) (Finset.mem_univ u)]
  have hsum : ∑ v ∈ Finset.univ.erase u, (kk - (Function.update th u t' v).rem)
      = ∑ v ∈ Finset.univ.erase u, (kk - (th v).rem) := by
    refine Finset.sum_congr rfl fun v hv => ?_
    rw [Function.update_noteq (Finset.ne_of_mem_erase hv)]
  rw [hsum, Function.update_same]
  omega

/-- Updating a thread without touching `rem` preserves the sum. -/
theorem totalTh_update_same_rem {n : Nat} (kk : Nat) (th : Fin n → Thread)
    (u : Fin n) (t' : Thread) (h : t'.rem = (th u).rem) :
    totalTh kk (Function.update th u t') = totalTh kk th := by
  have h2 := totalTh_update (n := n) kk th u t'
  omega

/-- Finishing an iteration bumps the sum by one. -/
theorem totalTh_update_dec_rem {n : Nat} (kk : Nat) (th : Fin n → Thread)
    (u : Fin n) (t' : Thread) (h : t'.rem = (th u).rem - 1)
    (h1 : 1 ≤ (th u).rem) (h2 : (th u).rem ≤ kk) :
    totalTh kk (Function.update th u t') = totalTh kk th + 1 := by
  have h3 := totalTh_update (n := n) kk th u t'
  omega

@[simp] theorem borrowCountAdd_value (s : RcuInner) (i : Nat) :
    (borrowCountAdd s i).value = s.value := by
  unfold borrowCountAdd; split <;> rfl

@[simp] theorem borrowCountAdd_next (s : RcuInner) (i : Nat) :
    (borrowCountAdd s i).next = s.next := by
  unfold borrowCountAdd; split <;> rfl

@[simp] theorem borrowCountAdd_amWriting (s : RcuInner) (i : Nat) :
    (borrowCountAdd s i).amWriting = s.amWriting := by
  unfold borrowCountAdd; split <;> rfl

@[simp] theorem borrowCountAdd_cur (s : RcuInner) (i : Nat) :
    (borrowCountAdd s i).currentBorrowCountIndex = s.currentBorrowCountIndex := by
  unfold borrowCountAdd; split <;> rfl

@[simp] theorem borrowCountAdd_heap (s : RcuInner) (i : Nat) :
    (borrowCountAdd s i).heap = s.heap := by
  unfold borrowCountAdd; split <;> rfl

@[simp] theorem borrowCountSub_value (s : RcuInner) (i : Nat) :
    (borrowCountSub s i).value = s.value := by
  unfold borrowCountSub; split <;> rfl

@[simp] theorem borrowCountSub_next (s : RcuInner) (i : Nat) :
    (borrowCountSub s i).next = s.next := by
  unfold borrowCountSub; split <;> rfl

@[simp] theorem borrowCountSub_amWriting (s : RcuInner) (i : Nat) :
    (borrowCountSub s i).amWriting = s.amWriting := by
  unfold borrowCountSub; split <;> rfl

@[simp] theorem borrowCountSub_cur (s : RcuInner) (i : Nat) :
    (borrowCountSub s i).currentBorrowCountIndex = s.currentBorrowCountIndex := by
  unfold borrowCountSub; split <;> rfl

@[simp] theorem borrowCountSub_heap (s : RcuInner) (i : Nat) :
    (borrowCountSub s i).heap = s.heap := by
  unfold borrowCountSub; split <;> rfl

theorem borrowCountGet_add_self (s : RcuInner) (i : Nat) :
    borrowCountGet (borrowCountAdd s i) i = borrowCountGet s i + 1 := by
  by_cases h : i = 0 <;> simp [borrowCountAdd, borrowCountGet, h]

theorem borrowCountGet_sub_self (s : RcuInner) (i : Nat) :
    borrowCountGet (borrowCountSub s i) i = borrowCountGet s i - 1 := by
  by_cases h : i = 0 <;> simp [borrowCountSub, borrowCountGet, h]

theorem natXor01 : Nat.xor 0 1 = 1 := rfl

theorem natXor11 : Nat.xor 1 1 = 0 := rfl

theorem borrowCountGet_add_other (s : RcuInner) (i : Nat) (h : i = 0 ∨ i = 1) :
    borrowCountGet (borrowCountAdd s i) (Nat.xor i 1)
      = borrowCountGet s (Nat.xor i 1) := by
  rcases h with h | h <;> subst h <;>
    simp [borrowCountAdd, borrowCountGet, natXor01, natXor11]

theorem borrowCountGet_sub_other (s : RcuInner) (i : Nat) (h : i = 0 ∨ i = 1) :
    borrowCountGet (borrowCountSub s i) (Nat.xor i 1)
      = borrowCountGet s (Nat.xor i 1) := by
  rcases h with h | h <;> subst h <;>
    simp [borrowCountSub, borrowCountGet, natXor01, natXor11]

@[simp] theorem publishNext_value (s : RcuInner) (ag : ArcGuard) :
    (publishNext s ag).value = s.value := rfl

@[simp] theorem publishNext_amWriting (s : RcuInner) (ag : ArcGuard) :
    (publishNext s ag).amWriting = s.amWriting := rfl

@[simp] theorem publishNext_cur (s : RcuInner) (ag : ArcGuard) :
    (publishNext s ag).currentBorrowCountIndex = s.currentBorrowCountIndex := rfl

@[simp] theorem publishNext_count0 (s : RcuInner) (ag : ArcGuard) :
    (publishNext s ag).borrowCount0 = s.borrowCount0 := rfl

@[simp] theorem publishNext_count1 (s : RcuInner) (ag : ArcGuard) :
    (publishNext s ag).borrowCount1 = s.borrowCount1 := rfl

@[simp] theorem publishNext_next (s : RcuInner) (ag : ArcGuard) :
    (publishNext s ag).next = some s.heap.length := rfl

@[simp] theorem publishNext_heap (s : RcuInner) (ag : ArcGuard) :
    (publishNext s ag).heap
      = s.heap ++ [{ val := ag.val, nxt := ag.nxt, alive := true }] := rfl

@[simp] theorem toggleIndex_value (s : RcuInner) : (toggleIndex s).value = s.value := rfl

@[simp] theorem toggleIndex_next (s : RcuInner) : (toggleIndex s).next = s.next := rfl

@[simp] theorem toggleIndex_amWriting (s : RcuInner) :
    (toggleIndex s).amWriting = s.amWriting := rfl

@[simp] theorem toggleIndex_count0 (s : RcuInner) :
    (toggleIndex s).borrowCount0 = s.borrowCount0 := rfl

@[simp] theorem toggleIndex_count1 (s : RcuInner) :
    (toggleIndex s).borrowCount1 = s.borrowCount1 := rfl

@[simp] theorem toggleIndex_heap (s : RcuInner) : (toggleIndex s).heap = s.heap := rfl

@[simp] theorem toggleIndex_cur (s : RcuInner) :
    (toggleIndex s).currentBorrowCountIndex
      = Nat.xor s.currentBorrowCountIndex 1 := rfl

@[simp] theorem clearAmWriting_value (s : RcuInner) :
    (clearAmWriting s).value = s.value := rfl

@[simp] theorem clearAmWriting_next (s : RcuInner) :
    (clearAmWriting s).next = s.next := rfl

@[simp] theorem clearAmWriting_amWriting (s : RcuInner) :
    (clearAmWriting s).amWriting = false := rfl

@[simp] theorem clearAmWriting_count0 (s : RcuInner) :
    (clearAmWriting s).borrowCount0 = s.borrowCount0 := rfl

@[simp] theorem clearAmWriting_count1 (s : RcuInner) :
    (clearAmWriting s).borrowCount1 = s.borrowCount1 := rfl

@[simp] theorem clearAmWriting_cur (s : RcuInner) :
    (clearAmWriting s).currentBorrowCountIndex = s.currentBorrowCountIndex := rfl

@[simp] theorem clearAmWriting_heap (s : RcuInner) :
    (clearAmWriting s).heap = s.heap := rfl

/-- Reduction of `cleanVersion` on a published node with a null snapshot. -/
theorem cleanVersion_pending (s : RcuInner) (a : Nat) (nd : HNode)
    (hnext : s.next = some a) (hheap : s.heap[a]? = some nd) (hnxt : nd.nxt = none) :
    cleanVersion s =
      ({ s with value := nd.val, next := none,
                heap := s.heap.set a { nd with val := s.value, alive := false } },
       [LockEvent.freeNode a]) := by
  unfold cleanVersion
  rw [hnext]
  simp only [hheap, hnxt]

theorem stepOf_wBefore_done {n : Nat} (s : Sys n) (u : Fin n)
    (h : (s.th u).pc = .wBefore) (hz : (s.th u).rem = 0) :
    stepOf s u = setTh s u { s.th u with pc := .wDone } := by
  simp [stepOf, stepEv, h, hz]

theorem stepOf_wBefore_go {n : Nat} (s : Sys n) (u : Fin n)
    (h : (s.th u).pc = .wBefore) (hz : (s.th u).rem ≠ 0) :
    stepOf s u = setTh s u { s.th u with pc := .wAcquire } := by
  simp [stepOf, stepEv, h, hz]

theorem stepOf_wAcquire_blocked {n : Nat} (s : Sys n) (u : Fin n)
    (h : (s.th u).pc = .wAcquire) (hw : s.sh.amWriting = true) :
    stepOf s u = s := by
  simp [stepOf, stepEv, h, hw]

theorem stepOf_wAcquire_free {n : Nat} (s : Sys n) (u : Fin n)
    (h : (s.th u).pc = .wAcquire) (hw : s.sh.amWriting = false) :
    stepOf s u =
      { sh := { s.sh with amWriting := true },
        th := Function.update s.th u
          { s.th u with pc := .wLoadIdx, w := visibleValue s.sh, snap := s.sh.next } } := by
  simp [stepOf, stepEv, h, hw]

theorem stepOf_wLoadIdx {n : Nat} (s : Sys n) (u : Fin n)
    (h : (s.th u).pc = .wLoadIdx) :
    stepOf s u = setTh s u
      { s.th u with pc := .wIncr, idx := s.sh.currentBorrowCountIndex } := by
  simp [stepOf, stepEv, h]

theorem stepOf_wIncr {n : Nat} (s : Sys n) (u : Fin n)
    (h : (s.th u).pc = .wIncr) :
    stepOf s u =
      { sh := borrowCountAdd s.sh (s.th u).idx,
        th := Function.update s.th u { s.th u with pc := .wMutate } } := by
  simp [stepOf, stepEv, h]

theorem stepOf_wMutate {n : Nat} (s : Sys n) (u : Fin n)
    (h : (s.th u).pc = .wMutate) :
    stepOf s u = setTh s u { s.th u with pc := .wPublish, w := (s.th u).w + 1 } := by
  simp [stepOf, stepEv, h]

theorem stepOf_wPublish {n : Nat} (s : Sys n) (u : Fin n)
    (h : (s.th u).pc = .wPublish) :
    stepOf s u =
      { sh := publishNext s.sh ⟨(s.th u).w, (s.th u).snap⟩,
        th := Function.update s.th u { s.th u with pc := .wToggle } } := by
  simp [stepOf, stepEv, h]

theorem stepOf_wToggle {n : Nat} (s : Sys n) (u : Fin n)
    (h : (s.th u).pc = .wToggle) :
    stepOf s u =
      { sh := toggleIndex s.sh,
        th := Function.update s.th u { s.th u with pc := .wDecr } } := by
  simp [stepOf, stepEv, h]

theorem stepOf_wDecr {n : Nat} (s : Sys n) (u : Fin n)
    (h : (s.th u).pc = .wDecr) :
    stepOf s u =
      { sh := borrowCountSub s.sh (s.th u).idx,
        th := Function.update s.th u { s.th u with pc := .wDrain } } := by
  simp [stepOf, stepEv, h]

theorem stepOf_wDrain_pass {n : Nat} (s : Sys n) (u : Fin n)
    (h : (s.th u).pc = .wDrain) (hc : borrowCountGet s.sh (s.th u).idx = 0) :
    stepOf s u = setTh s u { s.th u with pc := .wClean } := by
  simp [stepOf, stepEv, h, hc]

theorem stepOf_wDrain_blocked {n : Nat} (s : Sys n) (u : Fin n)
    (h : (s.th u).pc = .wDrain) (hc : borrowCountGet s.sh (s.th u).idx ≠ 0) :
    stepOf s u = s := by
  simp [stepOf, stepEv, h, hc]

theorem stepOf_wClean {n : Nat} (s : Sys n) (u : Fin n)
    (h : (s.th u).pc = .wClean) :
    stepOf s u =
      { sh := (cleanVersion s.sh).1,
        th := Function.update s.th u { s.th u with pc := .wClearW } } := by
  simp [stepOf, stepEv, h]

theorem stepOf_wClearW {n : Nat} (s : Sys n) (u : Fin n)
    (h : (s.th u).pc = .wClearW) :
    stepOf s u =
      { sh := clearAmWriting s.sh,
        th := Function.update s.th u
          { s.th u with pc := .wBefore, rem := (s.th u).rem - 1 } } := by
  simp [stepOf, stepEv, h]

theorem stepOf_wDone {n : Nat} (s : Sys n) (u : Fin n)
    (h : (s.th u).pc = .wDone) : stepOf s u = s := by
  simp [stepOf, stepEv, h]

theorem stepOf_rBefore {n : Nat} (s : Sys n) (u : Fin n)
    (h : (s.th u).pc = .rBefore) :
    stepOf s u = setTh s u { s.th u with pc := .rLoadIdx } := by
  simp [stepOf, stepEv, h]

theorem stepOf_rLoadIdx {n : Nat} (s : Sys n) (u : Fin n)
    (h : (s.th u).pc = .rLoadIdx) :
    stepOf s u = setTh s u
      { s.th u with pc := .rIncr, idx := s.sh.currentBorrowCountIndex } := by
  simp [stepOf, stepEv, h]

theorem stepOf_rIncr {n : Nat} (s : Sys n) (u : Fin n)
    (h : (s.th u).pc = .rIncr) :
    stepOf s u =
      { sh := borrowCountAdd s.sh (s.th u).idx,
        th := Function.update s.th u { s.th u with pc := .rMkPtr } } := by
  simp [stepOf, stepEv, h]

theorem stepOf_rMkPtr {n : Nat} (s : Sys n) (u : Fin n)
    (h : (s.th u).pc = .rMkPtr) :
    stepOf s u = setTh s u { s.th u with pc := .rHold, ptr := derefPtr s.sh } := by
  simp [stepOf, stepEv, h]

theorem stepOf_rHold {n : Nat} (s : Sys n) (u : Fin n)
    (h : (s.th u).pc = .rHold) :
    stepOf s u =
      { sh := borrowCountSub s.sh (s.th u).idx,
        th := Function.update s.th u { s.th u with pc := .rDone } } := by
  simp [stepOf, stepEv, h]

theorem stepOf_rDone {n : Nat} (s : Sys n) (u : Fin n)
    (h : (s.th u).pc = .rDone) : stepOf s u = s := by
  simp [stepOf, stepEv, h]

theorem writerInactive_pc_cases {t : Thread} (h : writerInactive t) :
    t.pc = .wBefore ∨ t.pc = .wAcquire ∨ t.pc = .wDone := by
  rcases h with h | ⟨h, _⟩ | ⟨h, _⟩
  · exact Or.inl h
  · exact Or.inr (Or.inl h)
  · exact Or.inr (Or.inr h)

theorem rem_update_le {n : Nat} {kk : Nat} {th : Fin n → Thread}
    (h : ∀ v, (th v).rem ≤ kk) (u : Fin n) (t' : Thread) (ht : t'.rem ≤ kk) :
    ∀ v, ((Function.update th u t') v).rem ≤ kk := by
  intro v
  by_cases hv : v = u
  · subst hv; simpa using ht
  · rw [Function.update_noteq hv]; exact h v

theorem writerInactive_update_other {n : Nat} {th : Fin n → Thread} {u : Fin n}
    {t' : Thread} (v : Fin n) (hv : v ≠ u) (h : writerInactive (th v)) :
    writerInactive ((Function.update th u t') v) := by
  rw [Function.update_noteq hv]; exact h

theorem borrowCountGet_of_bcZero {s : RcuInner} (h : bcZero s) (i : Nat) :
    borrowCountGet s i = 0 := by
  obtain ⟨h0, h1⟩ := h
  unfold borrowCountGet
  split <;> assumption

theorem bcZero_of_get {s : RcuInner} (i : Nat) (h : i = 0 ∨ i = 1)
    (h1 : borrowCountGet s i = 0) (h2 : borrowCountGet s (Nat.xor i 1) = 0) :
    bcZero s := by
  rcases h with h | h <;> subst h <;>
    simp [borrowCountGet, natXor01, natXor11] at h1 h2
  · exact ⟨h1, h2⟩
  · exact ⟨h2, h1⟩

theorem pendingNode_congr {s s' : RcuInner} (h : pendingNode s)
    (hn : s'.next = s.next) (hh : s'.heap = s.heap) (hv : s'.value = s.value) :
    pendingNode s' := by
  obtain ⟨a, h1, h2⟩ := h
  exact ⟨a, by rw [hn, h1], by rw [hh, hv]; exact h2⟩

/-- One step of any thread preserves the writer-only invariant. -/
theorem sysInv_step {n : Nat} (kk : Nat) (s : Sys n) (u : Fin n)
    (h : SysInv kk s) : SysInv kk (stepOf s u) := by
  obtain ⟨hcur, hrem, hbr⟩ := h
  cases hpc : (s.th u).pc with
  | wBefore =>
      -- u is outside its critical section; only its pc (and possibly nothing)
      -- changes, the shared cell is untouched.
      have hstep : ∀ t' : Thread, t'.rem = (s.th u).rem →
          (writerInactive t') →
          SysInv kk (setTh s u t') := by
        intro t' hr hin
        refine ⟨by simpa using hcur, ?_, ?_⟩
        · exact rem_update_le hrem u t' (hr ▸ hrem u)
        · rcases hbr with ⟨hinact, hidle, hval⟩ | ⟨j, hact, hoth, hval⟩
          · refine Or.inl ⟨?_, by simpa using hidle, ?_⟩
            · intro v
              by_cases hv : v = u
              · subst hv; simpa [Function.update_same] using hin
              · exact writerInactive_update_other v hv (hinact v)
            · simpa [totalTh_update_same_rem kk s.th u t' hr] using hval
          · have hju : u ≠ j := by
              intro hju
              have := hact
              rw [← hju] at this
              simp [writerActive, hpc] at this
            refine Or.inr ⟨j, ?_, ?_, ?_⟩
            · simpa [Function.update_noteq (Ne.symm hju)] using hact
            · intro v hv
              by_cases hvu : v = u
              · subst hvu; simpa [Function.update_same] using hin
              · exact writerInactive_update_other v hvu (hoth v hv)
            · simpa [totalTh_update_same_rem kk s.th u t' hr,
                Function.update_noteq (Ne.symm hju)] using hval
      by_cases hz : (s.th u).rem = 0
      · rw [stepOf_wBefore_done s u hpc hz]
        exact hstep _ rfl (Or.inr (Or.inr ⟨rfl, hz⟩))
      · rw [stepOf_wBefore_go s u hpc hz]
        exact hstep _ rfl (Or.inr (Or.inl ⟨rfl, Nat.one_le_iff_ne_zero.mpr hz⟩))
  | wAcquire =>
      rcases hbr with ⟨hinact, hidle, hval⟩ | ⟨j, hact, hoth, hval⟩
      · -- idle cell: the swap succeeds and u enters its critical section
        obtain ⟨hw, hnext, hbc⟩ := hidle
        have hrem1 : 1 ≤ (s.th u).rem := by
          rcases hinact u with h1 | ⟨_, h2⟩ | ⟨h1, _⟩
          · rw [hpc] at h1; simp at h1
          · exact h2
          · rw [hpc] at h1; simp at h1
        rw [stepOf_wAcquire_free s u hpc hw]
        refine ⟨by simpa using hcur, ?_, Or.inr ⟨u, ?_, ?_, ?_⟩⟩
        · exact rem_update_le hrem u _ (hrem u)
        · simp only [Function.update_same]
          refine ⟨rfl, hrem1, hnext, ?_⟩
          simp only []
          refine ⟨hnext, hbc, ?_⟩
          simp [visibleValue, hnext]
        · intro v hv
          exact writerInactive_update_other v hv (hinact v)
        · simp only [Function.update_same]
          have ht : totalTh kk (Function.update s.th u
              { s.th u with pc := .wLoadIdx, w := visibleValue s.sh, snap := s.sh.next })
              = totalTh kk s.th := totalTh_update_same_rem kk s.th u _ rfl
          simpa [ht] using hval
      · -- a writer is active, so am_writing is held: the swap fails
        have hw : s.sh.amWriting = true := hact.1
        rw [stepOf_wAcquire_blocked s u hpc hw]
        exact ⟨hcur, hrem, Or.inr ⟨j, hact, hoth, hval⟩⟩
  | wDone =>
      rw [stepOf_wDone s u hpc]
      exact ⟨hcur, hrem, hbr⟩
  | wLoadIdx =>
      rcases hbr with ⟨hinact, _, _⟩ | ⟨j, hact, hoth, hval⟩
      · have h1 := writerInactive_pc_cases (hinact u); rw [hpc] at h1; simp at h1
      · by_cases hju : u = j
        · subst hju
          simp only [writerActive, hpc] at hact
          obtain ⟨hamw, hrem1, hsnap, hnext, hbc, hw⟩ := hact
          rw [stepOf_wLoadIdx s u hpc]
          refine ⟨by simpa using hcur, rem_update_le hrem u _ (hrem u),
            Or.inr ⟨u, ?_, ?_, ?_⟩⟩
          · simp only [setTh_sh, setTh_th, Function.update_same]
            exact ⟨hamw, hrem1, hsnap, hnext, hbc, hw, rfl, hcur⟩
          · intro v hv
            exact writerInactive_update_other v hv (hoth v hv)
          · have ht := totalTh_update_same_rem kk s.th u
              { s.th u with pc := .wIncr, idx := s.sh.currentBorrowCountIndex } rfl
            simp only [setTh_sh, setTh_th, Function.update_same, ht]
            simpa [hpc] using hval
        · have h1 := writerInactive_pc_cases (hoth u hju); rw [hpc] at h1; simp at h1
  | wIncr =>
      rcases hbr with ⟨hinact, _, _⟩ | ⟨j, hact, hoth, hval⟩
      · have h1 := writerInactive_pc_cases (hinact u); rw [hpc] at h1; simp at h1
      · by_cases hju : u = j
        · subst hju
          simp only [writerActive, hpc] at hact
          obtain ⟨hamw, hrem1, hsnap, hnext, hbc, hw, hidxc, hidx01⟩ := hact
          rw [stepOf_wIncr s u hpc]
          refine ⟨by simpa using hcur, rem_update_le hrem u _ (hrem u),
            Or.inr ⟨u, ?_, ?_, ?_⟩⟩
          · simp only [Function.update_same, writerActive]
            refine ⟨by simpa using hamw, hrem1, hsnap, by simpa using hnext, ?_, by simpa using hw⟩
            refine ⟨hidx01, ?_, ?_⟩
            · rw [borrowCountGet_add_self, borrowCountGet_of_bcZero hbc]
            · rw [borrowCountGet_add_other s.sh _ hidx01,
                borrowCountGet_of_bcZero hbc]
          · intro v hv
            exact writerInactive_update_other v hv (hoth v hv)
          · have ht := totalTh_update_same_rem kk s.th u
              { s.th u with pc := .wMutate } rfl
            simp only [Function.update_same, ht, borrowCountAdd_value]
            simpa [hpc] using hval
        · have h1 := writerInactive_pc_cases (hoth u hju); rw [hpc] at h1; simp at h1
  | wMutate =>
      rcases hbr with ⟨hinact, _, _⟩ | ⟨j, hact, hoth, hval⟩
      · have h1 := writerInactive_pc_cases (hinact u); rw [hpc] at h1; simp at h1
      · by_cases hju : u = j
        · subst hju
          simp only [writerActive, hpc] at hact
          obtain ⟨hamw, hrem1, hsnap, hnext, hbc, hw⟩ := hact
          rw [stepOf_wMutate s u hpc]
          refine ⟨by simpa using hcur, rem_update_le hrem u _ (hrem u),
            Or.inr ⟨u, ?_, ?_, ?_⟩⟩
          · simp only [setTh_sh, setTh_th, Function.update_same, writerActive]
            exact ⟨hamw, hrem1, hsnap, hnext, hbc, by rw [hw]⟩
          · intro v hv
            exact writerInactive_update_other v hv (hoth v hv)
          · have ht := totalTh_update_same_rem kk s.th u
              { s.th u with pc := .wPublish, w := (s.th u).w + 1 } rfl
            simp only [setTh_sh, setTh_th, Function.update_same, ht]
            simpa [hpc] using hval
        · have h1 := writerInactive_pc_cases (hoth u hju); rw [hpc] at h1; simp at h1
  | wPublish =>
      rcases hbr with ⟨hinact, _, _⟩ | ⟨j, hact, hoth, hval⟩
      · have h1 := writerInactive_pc_cases (hinact u); rw [hpc] at h1; simp at h1
      · by_cases hju : u = j
        · subst hju
          simp only [writerActive, hpc] at hact
          obtain ⟨hamw, hrem1, hsnap, hnext, hbc, hw⟩ := hact
          rw [stepOf_wPublish s u hpc]
          refine ⟨by simpa using hcur, rem_update_le hrem u _ (hrem u),
            Or.inr ⟨u, ?_, ?_, ?_⟩⟩
          · simp only [Function.update_same, writerActive]
            refine ⟨by simpa using hamw, hrem1, hsnap, ?_, ?_⟩
            · refine ⟨s.sh.heap.length, by simp, ?_⟩
              simp only [publishNext_heap, publishNext_value, hsnap]
              rw [hw]
              exact List.getElem?_concat_length _ _
            · obtain ⟨hi01, hg1, hg0⟩ := hbc
              exact ⟨hi01, by simpa [borrowCountGet] using hg1,
                by simpa [borrowCountGet] using hg0⟩
          · intro v hv
            exact writerInactive_update_other v hv (hoth v hv)
          · have ht := totalTh_update_same_rem kk s.th u
              { s.th u with pc := .wToggle } rfl
            simp only [Function.update_same, ht, publishNext_value]
            simpa [hpc] using hval
        · have h1 := writerInactive_pc_cases (hoth u hju); rw [hpc] at h1; simp at h1
  | wToggle =>
      rcases hbr with ⟨hinact, _, _⟩ | ⟨j, hact, hoth, hval⟩
      · have h1 := writerInactive_pc_cases (hinact u); rw [hpc] at h1; simp at h1
      · by_cases hju : u = j
        · subst hju
          simp only [writerActive, hpc] at hact
          obtain ⟨hamw, hrem1, hsnap, hpend, hbc⟩ := hact
          rw [stepOf_wToggle s u hpc]
          refine ⟨?_, rem_update_le hrem u _ (hrem u), Or.inr ⟨u, ?_, ?_, ?_⟩⟩
          · rcases hcur with hc | hc <;> simp [hc, natXor01, natXor11]
          · simp only [Function.update_same, writerActive]
            refine ⟨by simpa using hamw, hrem1, hsnap, ?_, ?_⟩
            · exact pendingNode_congr hpend rfl rfl rfl
            · obtain ⟨hi01, hg1, hg0⟩ := hbc
              exact ⟨hi01, by simpa [borrowCountGet] using hg1,
                by simpa [borrowCountGet] using hg0⟩
          · intro v hv
            exact writerInactive_update_other v hv (hoth v hv)
          · have ht := totalTh_update_same_rem kk s.th u
              { s.th u with pc := .wDecr } rfl
            simp only [Function.update_same, ht, toggleIndex_value]
            simpa [hpc] using hval
        · have h1 := writerInactive_pc_cases (hoth u hju); rw [hpc] at h1; simp at h1
  | wDecr =>
      rcases hbr with ⟨hinact, _, _⟩ | ⟨j, hact, hoth, hval⟩
      · have h1 := writerInactive_pc_cases (hinact u); rw [hpc] at h1; simp at h1
      · by_cases hju : u = j
        · subst hju
          simp only [writerActive, hpc] at hact
          obtain ⟨hamw, hrem1, hsnap, hpend, hbc⟩ := hact
          rw [stepOf_wDecr s u hpc]
          refine ⟨by simpa using hcur, rem_update_le hrem u _ (hrem u),
            Or.inr ⟨u, ?_, ?_, ?_⟩⟩
          · simp only [Function.update_same, writerActive]
            refine ⟨by simpa using hamw, hrem1, hsnap, ?_, ?_⟩
            · exact pendingNode_congr hpend (by simp) (by simp) (by simp)
            · obtain ⟨hi01, hg1, hg0⟩ := hbc
              refine bcZero_of_get (s.th u).idx hi01 ?_ ?_
              · rw [borrowCountGet_sub_self, hg1]
              · rw [borrowCountGet_sub_other s.sh _ hi01, hg0]
          · intro v hv
            exact writerInactive_update_other v hv (hoth v hv)
          · have ht := totalTh_update_same_rem kk s.th u
              { s.th u with pc := .wDrain } rfl
            simp only [Function.update_same, ht, borrowCountSub_value]
            simpa [hpc] using hval
        · have h1 := writerInactive_pc_cases (hoth u hju); rw [hpc] at h1; simp at h1
  | wDrain =>
      rcases hbr with ⟨hinact, _, _⟩ | ⟨j, hact, hoth, hval⟩
      · have h1 := writerInactive_pc_cases (hinact u); rw [hpc] at h1; simp at h1
      · by_cases hju : u = j
        · subst hju
          simp only [writerActive, hpc] at hact
          obtain ⟨hamw, hrem1, hsnap, hpend, hbc⟩ := hact
          have hc : borrowCountGet s.sh (s.th u).idx = 0 :=
            borrowCountGet_of_bcZero hbc _
          rw [stepOf_wDrain_pass s u hpc hc]
          refine ⟨by simpa using hcur, rem_update_le hrem u _ (hrem u),
            Or.inr ⟨u, ?_, ?_, ?_⟩⟩
          · simp only [setTh_sh, setTh_th, Function.update_same, writerActive]
            exact ⟨hamw, hrem1, hsnap, hpend, hbc⟩
          · intro v hv
            exact writerInactive_update_other v hv (hoth v hv)
          · have ht := totalTh_update_same_rem kk s.th u
              { s.th u with pc := .wClean } rfl
            simp only [setTh_sh, setTh_th, Function.update_same, ht]
            simpa [hpc] using hval
        · have h1 := writerInactive_pc_cases (hoth u hju); rw [hpc] at h1; simp at h1
  | wClean =>
      rcases hbr with ⟨hinact, _, _⟩ | ⟨j, hact, hoth, hval⟩
      · have h1 := writerInactive_pc_cases (hinact u); rw [hpc] at h1; simp at h1
      · by_cases hju : u = j
        · subst hju
          simp only [writerActive, hpc] at hact
          obtain ⟨hamw, hrem1, hsnap, hpend, hbc⟩ := hact
          obtain ⟨a, hnext, hheap⟩ := hpend
          rw [stepOf_wClean s u hpc]
          rw [cleanVersion_pending s.sh a ⟨s.sh.value + 1, none, true⟩ hnext hheap rfl]
          refine ⟨by simpa using hcur, rem_update_le hrem u _ (hrem u),
            Or.inr ⟨u, ?_, ?_, ?_⟩⟩
          · simp only [Function.update_same, writerActive]
            exact ⟨hamw, hrem1, hsnap, by simp, hbc⟩
          · intro v hv
            exact writerInactive_update_other v hv (hoth v hv)
          · have ht := totalTh_update_same_rem kk s.th u
              { s.th u with pc := .wClearW } rfl
            simp only [Function.update_same, ht]
            simpa [hpc] using hval
        · have h1 := writerInactive_pc_cases (hoth u hju); rw [hpc] at h1; simp at h1
  | wClearW =>
      rcases hbr with ⟨hinact, _, _⟩ | ⟨j, hact, hoth, hval⟩
      · have h1 := writerInactive_pc_cases (hinact u); rw [hpc] at h1; simp at h1
      · by_cases hju : u = j
        · subst hju
          simp only [writerActive, hpc] at hact
          obtain ⟨hamw, hrem1, hsnap, hnext, hbc⟩ := hact
          rw [stepOf_wClearW s u hpc]
          have htot := totalTh_update_dec_rem kk s.th u
            { s.th u with pc := .wBefore, rem := (s.th u).rem - 1 } rfl hrem1 (hrem u)
          refine ⟨by simpa using hcur, ?_, Or.inl ⟨?_, ?_, ?_⟩⟩
          · refine rem_update_le hrem u _ ?_
            have := hrem u
            simp only []
            omega
          · intro v
            by_cases hv : v = u
            · subst hv
              simp only [Function.update_same]
              exact Or.inl rfl
            · exact writerInactive_update_other v hv (hoth v hv)
          · exact ⟨rfl, by simpa using hnext, by simpa using hbc⟩
          · simp only [clearAmWriting_value, htot]
            simpa [hpc] using hval
        · have h1 := writerInactive_pc_cases (hoth u hju); rw [hpc] at h1; simp at h1
  | rBefore =>
      exfalso
      rcases hbr with ⟨hinact, _, _⟩ | ⟨j, hact, hoth, _⟩
      · have h1 := writerInactive_pc_cases (hinact u); rw [hpc] at h1; simp at h1
      · by_cases hju : u = j
        · subst hju; simp [writerActive, hpc] at hact
        · have h1 := writerInactive_pc_cases (hoth u hju); rw [hpc] at h1; simp at h1
  | rLoadIdx =>
      exfalso
      rcases hbr with ⟨hinact, _, _⟩ | ⟨j, hact, hoth, _⟩
      · have h1 := writerInactive_pc_cases (hinact u); rw [hpc] at h1; simp at h1
      · by_cases hju : u = j
        · subst hju; simp [writerActive, hpc] at hact
        · have h1 := writerInactive_pc_cases (hoth u hju); rw [hpc] at h1; simp at h1
  | rIncr =>
      exfalso
      rcases hbr with ⟨hinact, _, _⟩ | ⟨j, hact, hoth, _⟩
      · have h1 := writerInactive_pc_cases (hinact u); rw [hpc] at h1; simp at h1
      · by_cases hju : u = j
        · subst hju; simp [writerActive, hpc] at hact
        · have h1 := writerInactive_pc_cases (hoth u hju); rw [hpc] at h1; simp at h1
  | rMkPtr =>
      exfalso
      rcases hbr with ⟨hinact, _, _⟩ | ⟨j, hact, hoth, _⟩
      · have h1 := writerInactive_pc_cases (hinact u); rw [hpc] at h1; simp at h1
      · by_cases hju : u = j
        · subst hju; simp [writerActive, hpc] at hact
        · have h1 := writerInactive_pc_cases (hoth u hju); rw [hpc] at h1; simp at h1
  | rHold =>
      exfalso
      rcases hbr with ⟨hinact, _, _⟩ | ⟨j, hact, hoth, _⟩
      · have h1 := writerInactive_pc_cases (hinact u); rw [hpc] at h1; simp at h1
      · by_cases hju : u = j
        · subst hju; simp [writerActive, hpc] at hact
        · have h1 := writerInactive_pc_cases (hoth u hju); rw [hpc] at h1; simp at h1
  | rDone =>
      exfalso
      rcases hbr with ⟨hinact, _, _⟩ | ⟨j, hact, hoth, _⟩
      · have h1 := writerInactive_pc_cases (hinact u); rw [hpc] at h1; simp at h1
      · by_cases hju : u = j
        · subst hju; simp [writerActive, hpc] at hact
        · have h1 := writerInactive_pc_cases (hoth u hju); rw [hpc] at h1; simp at h1

theorem sysInv_init (n kk : Nat) : SysInv kk (initSys n kk) := by
  refine ⟨Or.inl rfl, ?_, Or.inl ⟨?_, ?_, ?_⟩⟩
  · intro u; simp [initSys, initWriter]
  · intro u; exact Or.inl rfl
  · exact ⟨rfl, rfl, rfl, rfl⟩
  · simp [initSys, initRcuInner, totalTh, initWriter]

theorem sysInv_run {n : Nat} (kk : Nat) (s : Sys n) (sched : List (Fin n))
    (h : SysInv kk s) : SysInv kk (run s sched) := by
  induction sched generalizing s with
  | nil => exact h
  | cons u rest ih => exact ih _ (sysInv_step kk s u h)

/-- C7: with `n` writer threads each performing `kk` increment-under-write-
guard iterations on `RcuLock::new 0` (the basic test), any interleaving after
which every thread has finished leaves the protected value at `n * kk`, and a
final `read` observes `n * kk`. -/
theorem rcu_writers_converge (n kk : Nat) (sched : List (Fin n))
    (hdone : ∀ u, ((run (initSys n kk) sched).th u).pc = .wDone) :
    (run (initSys n kk) sched).sh.value = n * kk ∧
    readPtr (rcuRead (run (initSys n kk) sched).sh).2.1
      ((rcuRead (run (initSys n kk) sched).sh).1.dataPtr) = n * kk := by
  have hinv := sysInv_run kk (initSys n kk) sched (sysInv_init n kk)
  obtain ⟨hcur, hrem, hbr⟩ := hinv
  rcases hbr with ⟨hinact, hidle, hval⟩ | ⟨j, hact, _, _⟩
  · have hrem0 : ∀ u, ((run (initSys n kk) sched).th u).rem = 0 := by
      intro u
      rcases hinact u with h1 | ⟨h1, _⟩ | ⟨_, h2⟩
      · rw [hdone u] at h1; simp at h1
      · rw [hdone u] at h1; simp at h1
      · exact h2
    have htot : totalTh kk (run (initSys n kk) sched).th = n * kk := by
      unfold totalTh
      have : ∀ u : Fin n, kk - ((run (initSys n kk) sched).th u).rem = kk := by
        intro u; rw [hrem0 u]; exact Nat.sub_zero kk
      rw [Finset.sum_congr rfl fun u _ => this u]
      simp [Finset.sum_const, Finset.card_univ, mul_comm]
    obtain ⟨hw, hnext, hbc⟩ := hidle
    have hvalue : (run (initSys n kk) sched).sh.value = n * kk := by
      rw [hval, htot]
    refine ⟨hvalue, ?_⟩
    simp only [rcuRead, readPtr, derefPtr, borrowCountAdd_next, hnext]
    simpa using hvalue
  · exfalso
    have := hact
    simp [writerActive, hdone j] at this

/-- Schedule for two writers with one iteration each: thread 0 runs to
completion, then thread 1. -/
def schedTwoWriters : List (Fin 2) :=
  List.replicate 12 0 ++ List.replicate 12 1

theorem rcu_writers_converge_witness :
    (∀ u, ((run (initSys 2 1) schedTwoWriters).th u).pc = WPC.wDone) ∧
    (run (initSys 2 1) schedTwoWriters).sh.value = 2 * 1 :=
  ⟨by decide, (rcu_writers_converge 2 1 schedTwoWriters (by decide)).1⟩

@[simp] theorem cleanVersion_amWriting (s : RcuInner) :
    (cleanVersion s).1.amWriting = s.amWriting := by
  unfold cleanVersion
  repeat' split
  all_goals rfl

@[simp] theorem cleanVersion_count0 (s : RcuInner) :
    (cleanVersion s).1.borrowCount0 = s.borrowCount0 := by
  unfold cleanVersion
  repeat' split
  all_goals rfl

@[simp] theorem cleanVersion_count1 (s : RcuInner) :
    (cleanVersion s).1.borrowCount1 = s.borrowCount1 := by
  unfold cleanVersion
  repeat' split
  all_goals rfl

@[simp] theorem cleanVersion_cur (s : RcuInner) :
    (cleanVersion s).1.currentBorrowCountIndex = s.currentBorrowCountIndex := by
  unfold cleanVersion
  repeat' split
  all_goals rfl

/-- Hook events never appear among cleanup's reclamation events. -/
theorem cleanVersion_ev_hooks (s : RcuInner) :
    (cleanVersion s).2.count LockEvent.beforeLock = 0 ∧
    (cleanVersion s).2.count LockEvent.afterLock = 0 := by
  unfold cleanVersion
  repeat' split
  all_goals simp [List.count_cons]

/-- The write-guard drop decomposed into the named primitive steps, in source
order: publish, toggle, decrement the remembered slot, the drain gate, clean,
clear `am_writing`, `after_lock` last. -/
theorem writeGuardDrop_eq (s : RcuInner) (g : RcuWriteGuard) (ag : ArcGuard)
    (hg : g.data = some ag) :
    rcuWriteGuardDrop s g =
      (if borrowCountGet (borrowCountSub (toggleIndex (publishNext s ag))
            g.borrowCountIndex) g.borrowCountIndex = 0 then
        some (clearAmWriting
            (cleanVersion (borrowCountSub (toggleIndex (publishNext s ag))
              g.borrowCountIndex)).1,
          (cleanVersion (borrowCountSub (toggleIndex (publishNext s ag))
              g.borrowCountIndex)).2 ++ [LockEvent.afterLock])
      else none) := by
  obtain ⟨data, idx⟩ := g
  simp only at hg
  subst hg
  simp only [rcuWriteGuardDrop, publishNext, toggleIndex, borrowCountSub,
    borrowCountGet, clearAmWriting, cleanVersion]
  repeat' split
  all_goals simp_all

theorem borrowCountGet_clear (s : RcuInner) (i : Nat) :
    borrowCountGet (clearAmWriting s) i = borrowCountGet s i := by
  simp [borrowCountGet]

theorem borrowCountGet_cleanVersion (s : RcuInner) (i : Nat) :
    borrowCountGet (cleanVersion s).1 i = borrowCountGet s i := by
  simp [borrowCountGet]

theorem borrowCountGet_toggle (s : RcuInner) (i : Nat) :
    borrowCountGet (toggleIndex s) i = borrowCountGet s i := by
  simp [borrowCountGet]

theorem borrowCountGet_publish (s : RcuInner) (ag : ArcGuard) (i : Nat) :
    borrowCountGet (publishNext s ag) i = borrowCountGet s i := by
  simp [borrowCountGet]

/-- What a successful write-guard drop guarantees: the writer lock is
released, only the remembered slot was decremented, and the events contain no
`before_lock` and exactly one `after_lock`. -/
theorem writeGuardDrop_success (s : RcuInner) (g : RcuWriteGuard) (s' : RcuInner)
    (ev : List LockEvent) (h : rcuWriteGuardDrop s g = some (s', ev)) :
    s'.amWriting = false ∧
    borrowCountGet s' g.borrowCountIndex
      = borrowCountGet s g.borrowCountIndex - 1 ∧
    ((g.borrowCountIndex = 0 ∨ g.borrowCountIndex = 1) →
      borrowCountGet s' (Nat.xor g.borrowCountIndex 1)
        = borrowCountGet s (Nat.xor g.borrowCountIndex 1)) ∧
    ev.count LockEvent.beforeLock = 0 ∧ ev.count LockEvent.afterLock = 1 := by
  cases hd : g.data with
  | none => rw [rcuWriteGuardDrop, hd] at h; cases h
  | some ag =>
      rw [writeGuardDrop_eq s g ag hd] at h
      by_cases hc : borrowCountGet (borrowCountSub (toggleIndex (publishNext s ag))
          g.borrowCountIndex) g.borrowCountIndex = 0
      · rw [if_pos hc] at h
        obtain ⟨h1, h2⟩ := Prod.mk.injEq .. ▸ Option.some.injEq .. ▸ h
        subst h1
        subst h2
        refine ⟨by simp, ?_, ?_, ?_, ?_⟩
        · rw [borrowCountGet_clear, borrowCountGet_cleanVersion,
            borrowCountGet_sub_self, borrowCountGet_toggle, borrowCountGet_publish]
        · intro hi
          rw [borrowCountGet_clear, borrowCountGet_cleanVersion,
            borrowCountGet_sub_other _ _ hi, borrowCountGet_toggle,
            borrowCountGet_publish]
        · have := cleanVersion_ev_hooks (borrowCountSub (toggleIndex (publishNext s ag))
            g.borrowCountIndex)
          simp [List.count_append, this.1]
        · have := cleanVersion_ev_hooks (borrowCountSub (toggleIndex (publishNext s ag))
            g.borrowCountIndex)
          simp [List.count_append, this.2]
      · rw [if_neg hc] at h; cases h

/-- C1: releasing an `RcuLockWriteGuard` performs, in source order: publish
the successor node into `next` (the inner guard's drop), toggle the
borrow-count index by xor 1, decrement the writer's own count in the
remembered pre-toggle slot, pass the grace-period spin only once that slot
reads zero, run cleanup (promote the successor value into `value` and null
`next`), clear `am_writing`, and call `after_lock` last. -/
theorem rcu_write_guard_drop_order (s : RcuInner) (g : RcuWriteGuard)
    (ag : ArcGuard) (hg : g.data = some ag) :
    rcuWriteGuardDrop s g =
      (if borrowCountGet (borrowCountSub (toggleIndex (publishNext s ag))
            g.borrowCountIndex) g.borrowCountIndex = 0 then
        some (clearAmWriting
            (cleanVersion (borrowCountSub (toggleIndex (publishNext s ag))
              g.borrowCountIndex)).1,
          (cleanVersion (borrowCountSub (toggleIndex (publishNext s ag))
              g.borrowCountIndex)).2 ++ [LockEvent.afterLock])
      else none) :=
  writeGuardDrop_eq s g ag hg

theorem rcu_write_guard_drop_order_witness :
    rcuWriteGuardDrop initRcuInner ⟨some ⟨5, none⟩, 0⟩ =
      (if borrowCountGet (borrowCountSub (toggleIndex (publishNext initRcuInner
            ⟨5, none⟩)) 0) 0 = 0 then
        some (clearAmWriting
            (cleanVersion (borrowCountSub (toggleIndex (publishNext initRcuInner
              ⟨5, none⟩)) 0)).1,
          (cleanVersion (borrowCountSub (toggleIndex (publishNext initRcuInner
              ⟨5, none⟩)) 0)).2 ++ [LockEvent.afterLock])
      else none) :=
  rcu_write_guard_drop_order initRcuInner ⟨some ⟨5, none⟩, 0⟩ ⟨5, none⟩ rfl

/-- C5: `try_write` returns none exactly when another writer holds
`am_writing` (after calling both hooks), and succeeds again once the holding
guard has been dropped. -/
theorem rcu_try_write_contention (s : RcuInner) :
    (s.amWriting = true →
      rcuTryWrite s = (none, s, [LockEvent.beforeLock, LockEvent.afterLock])) ∧
    (s.amWriting = false → (rcuTryWrite s).1.isSome = true) ∧
    (∀ g s' ev, rcuWriteGuardDrop s g = some (s', ev) →
      (rcuTryWrite s').1.isSome = true) := by
  refine ⟨?_, ?_, ?_⟩
  · intro hw; simp [rcuTryWrite, tryUpdate, hw]
  · intro hw; simp [rcuTryWrite, tryUpdate, hw]
  · intro g s' ev h
    have hw := (writeGuardDrop_success s g s' ev h).1
    simp [rcuTryWrite, tryUpdate, hw]

/-- The cell right after a successful `try_write` on a fresh lock: the writer
holds `am_writing` and one count in slot 0. -/
def rcuHeldState : RcuInner :=
  { value := 0, next := none, amWriting := true, borrowCount0 := 1,
    borrowCount1 := 0, currentBorrowCountIndex := 0, heap := [] }

/-- The cell while `am_writing` is held but before the writer's own count is
taken (the state seen by the drop of the write guard). -/
def rcuMidDropState : RcuInner :=
  { value := 0, next := none, amWriting := true, borrowCount0 := 0,
    borrowCount1 := 0, currentBorrowCountIndex := 0, heap := [] }

/-- The cell after a full write cycle of value 0 completed. -/
def rcuAfterCycleState : RcuInner :=
  { value := 0, next := none, amWriting := false, borrowCount0 := 0,
    borrowCount1 := 0, currentBorrowCountIndex := 1,
    heap := [{ val := 0, nxt := none, alive := false }] }

theorem rcu_try_write_contention_witness :
    rcuTryWrite rcuHeldState =
      (none, rcuHeldState, [LockEvent.beforeLock, LockEvent.afterLock]) ∧
    (rcuTryWrite initRcuInner).1.isSome = true ∧
    (rcuTryWrite rcuAfterCycleState).1.isSome = true :=
  ⟨(rcu_try_write_contention rcuHeldState).1 rfl,
   (rcu_try_write_contention initRcuInner).2.1 rfl,
   (rcu_try_write_contention rcuMidDropState).2.2 ⟨some ⟨0, none⟩, 0⟩
     rcuAfterCycleState [LockEvent.freeNode 0, LockEvent.afterLock] (by decide)⟩

/-- C3: readers and writers record the slot selected by the current index at
acquisition, increment exactly that slot, and decrement exactly that
remembered slot on release — never the other slot. -/
theorem rcu_borrow_slot_discipline (s : RcuInner)
    (hcur : s.currentBorrowCountIndex = 0 ∨ s.currentBorrowCountIndex = 1) :
    ((rcuRead s).1.borrowCountIndex = s.currentBorrowCountIndex ∧
      borrowCountGet (rcuRead s).2.1 s.currentBorrowCountIndex
        = borrowCountGet s s.currentBorrowCountIndex + 1 ∧
      borrowCountGet (rcuRead s).2.1 (Nat.xor s.currentBorrowCountIndex 1)
        = borrowCountGet s (Nat.xor s.currentBorrowCountIndex 1)) ∧
    (∀ g : RcuReadGuard, g.borrowCountIndex = 0 ∨ g.borrowCountIndex = 1 →
      borrowCountGet (rcuReadGuardDrop s g).1 g.borrowCountIndex
        = borrowCountGet s g.borrowCountIndex - 1 ∧
      borrowCountGet (rcuReadGuardDrop s g).1 (Nat.xor g.borrowCountIndex 1)
        = borrowCountGet s (Nat.xor g.borrowCountIndex 1)) ∧
    (∀ g : RcuWriteGuard, (rcuTryWrite s).1 = some g →
      g.borrowCountIndex = s.currentBorrowCountIndex ∧
      borrowCountGet (rcuTryWrite s).2.1 s.currentBorrowCountIndex
        = borrowCountGet s s.currentBorrowCountIndex + 1 ∧
      borrowCountGet (rcuTryWrite s).2.1 (Nat.xor s.currentBorrowCountIndex 1)
        = borrowCountGet s (Nat.xor s.currentBorrowCountIndex 1)) ∧
    (∀ g : RcuWriteGuard, g.borrowCountIndex = 0 ∨ g.borrowCountIndex = 1 →
      ∀ s' ev, rcuWriteGuardDrop s g = some (s', ev) →
      borrowCountGet s' g.borrowCountIndex
        = borrowCountGet s g.borrowCountIndex - 1 ∧
      borrowCountGet s' (Nat.xor g.borrowCountIndex 1)
        = borrowCountGet s (Nat.xor g.borrowCountIndex 1)) := by
  refine ⟨⟨rfl, ?_, ?_⟩, ?_, ?_, ?_⟩
  · simp [rcuRead, borrowCountGet_add_self]
  · simp [rcuRead, borrowCountGet_add_other s _ hcur]
  · intro g hi
    exact ⟨by simp [rcuReadGuardDrop, borrowCountGet_sub_self],
      by simp [rcuReadGuardDrop, borrowCountGet_sub_other s _ hi]⟩
  · intro g hg
    by_cases hw : s.amWriting
    · simp [rcuTryWrite, tryUpdate, hw] at hg
    · simp only [rcuTryWrite, tryUpdate, hw, if_neg, Bool.false_eq_true] at hg ⊢
      simp only [if_false] at hg ⊢
      refine ⟨?_, ?_, ?_⟩
      · rw [← Option.some.injEq] at hg
        simp at hg
        rw [← hg]
      · rw [borrowCountGet_add_self]
        simp [borrowCountGet]
      · rw [borrowCountGet_add_other _ _ (by simpa using hcur)]
        simp [borrowCountGet]
  · intro g hi s' ev h
    have hs := writeGuardDrop_success s g s' ev h
    exact ⟨hs.2.1, hs.2.2.1 hi⟩

theorem rcu_borrow_slot_discipline_witness :
    (rcuRead initRcuInner).1.borrowCountIndex
      = initRcuInner.currentBorrowCountIndex ∧
    borrowCountGet (rcuRead initRcuInner).2.1 initRcuInner.currentBorrowCountIndex
      = borrowCountGet initRcuInner initRcuInner.currentBorrowCountIndex + 1 ∧
    borrowCountGet (rcuRead initRcuInner).2.1
        (Nat.xor initRcuInner.currentBorrowCountIndex 1)
      = borrowCountGet initRcuInner (Nat.xor initRcuInner.currentBorrowCountIndex 1) :=
  (rcu_borrow_slot_discipline initRcuInner (Or.inl rfl)).1

/-- C6: starting from an idle cell, writing `v` and dropping the guard leaves
`v` in the primary `value` slot with `next` null again, the successor node
freed, and a subsequent read observing `v`. -/
theorem rcu_write_cycle_cleanup (s : RcuInner) (v : Nat)
    (hidle : idleRcu s) :
    ∃ g s1 s2 ev,
      rcuTryWrite s = (some g, s1, [LockEvent.beforeLock]) ∧
      rcuWriteGuardDrop s1 (rcuWriteGuardSet g v) = some (s2, ev) ∧
      s2.value = v ∧ s2.next = none ∧
      (s2.heap[s.heap.length]?).map HNode.alive = some false ∧
      readPtr (rcuRead s2).2.1 (rcuRead s2).1.dataPtr = v := by
  obtain ⟨hw, hnext, hbc⟩ := hidle
  have hsetg : rcuWriteGuardSet ⟨some ⟨s.value, s.next⟩, s.currentBorrowCountIndex⟩ v
      = ⟨some ⟨v, s.next⟩, s.currentBorrowCountIndex⟩ := by
    simp [rcuWriteGuardSet]
  have hs1heap : (borrowCountAdd { s with amWriting := true }
      s.currentBorrowCountIndex).heap = s.heap := by simp
  have hn3 : (borrowCountSub (toggleIndex (publishNext
      (borrowCountAdd { s with amWriting := true } s.currentBorrowCountIndex)
      ⟨v, s.next⟩)) s.currentBorrowCountIndex).next = some s.heap.length := by
    simp
  have hh3 : (borrowCountSub (toggleIndex (publishNext
      (borrowCountAdd { s with amWriting := true } s.currentBorrowCountIndex)
      ⟨v, s.next⟩)) s.currentBorrowCountIndex).heap[s.heap.length]?
      = some ⟨v, s.next, true⟩ := by
    simp [List.getElem?_concat_length]
  have hclean := cleanVersion_pending _ s.heap.length ⟨v, s.next, true⟩ hn3 hh3 hnext
  have hcond : borrowCountGet (borrowCountSub (toggleIndex (publishNext
      (borrowCountAdd { s with amWriting := true } s.currentBorrowCountIndex)
      ⟨v, s.next⟩)) s.currentBorrowCountIndex) s.currentBorrowCountIndex = 0 := by
    rw [borrowCountGet_sub_self, borrowCountGet_toggle, borrowCountGet_publish,
      borrowCountGet_add_self]
    have h0 : borrowCountGet { s with amWriting := true } s.currentBorrowCountIndex
        = borrowCountGet s s.currentBorrowCountIndex := by
      simp [borrowCountGet]
    rw [h0, borrowCountGet_of_bcZero hbc]
  refine ⟨⟨some ⟨s.value, s.next⟩, s.currentBorrowCountIndex⟩,
    borrowCountAdd { s with amWriting := true } s.currentBorrowCountIndex,
    clearAmWriting (cleanVersion (borrowCountSub (toggleIndex (publishNext
      (borrowCountAdd { s with amWriting := true } s.currentBorrowCountIndex)
      ⟨v, s.next⟩)) s.currentBorrowCountIndex)).1,
    (cleanVersion (borrowCountSub (toggleIndex (publishNext
      (borrowCountAdd { s with amWriting := true } s.currentBorrowCountIndex)
      ⟨v, s.next⟩)) s.currentBorrowCountIndex)).2 ++ [LockEvent.afterLock],
    ?_, ?_, ?_, ?_, ?_, ?_⟩
  · simp [rcuTryWrite, tryUpdate, hw, visibleValue, hnext]
  · rw [hsetg, writeGuardDrop_eq _ _ ⟨v, s.next⟩ rfl, if_pos hcond]
  · rw [hclean]; simp
  · rw [hclean]; simp
  · rw [hclean]
    simp only [clearAmWriting_heap]
    have hlen : s.heap.length < ((borrowCountSub (toggleIndex (publishNext
        (borrowCountAdd { s with amWriting := true } s.currentBorrowCountIndex)
        ⟨v, s.next⟩)) s.currentBorrowCountIndex).heap).length := by
      simp
    rw [List.getElem?_set_self hlen]
    rfl
  · rw [hclean]
    simp [rcuRead, readPtr, derefPtr]

theorem rcu_write_cycle_cleanup_witness :
    idleRcu initRcuInner ∧
    (∃ g s1 s2 ev,
      rcuTryWrite initRcuInner = (some g, s1, [LockEvent.beforeLock]) ∧
      rcuWriteGuardDrop s1 (rcuWriteGuardSet g 7) = some (s2, ev) ∧
      s2.value = 7 ∧ s2.next = none ∧
      (s2.heap[initRcuInner.heap.length]?).map HNode.alive = some false ∧
      readPtr (rcuRead s2).2.1 (rcuRead s2).1.dataPtr = 7) :=
  ⟨⟨rfl, rfl, rfl, rfl⟩, rcu_write_cycle_cleanup initRcuInner 7 ⟨rfl, rfl, rfl, rfl⟩⟩

/-- C10: every write guard produced by `write` (any number of retries) or by
`try_write` carries `data = some _`, so `Deref`/`DerefMut` never reach the
panic branch; stores through `DerefMut` keep it that way. -/
theorem rcu_write_guard_no_panic (s : RcuInner) (fuel : Nat) :
    (∀ g s1, rcuWriteLoop fuel s = some (g, s1) →
      g.data.isSome = true ∧ (rcuWriteGuardDeref g).isSome = true) ∧
    (∀ g, (rcuTryWrite s).1 = some g →
      g.data.isSome = true ∧ (rcuWriteGuardDeref g).isSome = true) ∧
    (∀ g : RcuWriteGuard, ∀ v : Nat, g.data.isSome = true →
      (rcuWriteGuardSet g v).data.isSome = true ∧
      rcuWriteGuardDeref (rcuWriteGuardSet g v) = some v) := by
  refine ⟨?_, ?_, ?_⟩
  · induction fuel generalizing s with
    | zero => intro g s1 h; simp [rcuWriteLoop] at h
    | succ fuel ih =>
        intro g s1 h
        rw [rcuWriteLoop] at h
        by_cases hw : s.amWriting
        · simp only [tryUpdate, hw, if_true] at h
          exact ih _ g s1 h
        · simp only [tryUpdate, hw, Bool.false_eq_true, if_false,
            Option.some.injEq] at h
          obtain ⟨hg, _⟩ := Prod.mk.injEq .. ▸ h
          subst hg
          exact ⟨rfl, rfl⟩
  · intro g h
    by_cases hw : s.amWriting
    · simp [rcuTryWrite, tryUpdate, hw] at h
    · simp only [rcuTryWrite, tryUpdate, hw, Bool.false_eq_true, if_false,
        Option.some.injEq] at h
      subst h
      exact ⟨rfl, rfl⟩
  · intro g v hg
    obtain ⟨ag, hag⟩ := Option.isSome_iff_exists.mp hg
    refine ⟨?_, ?_⟩ <;> simp [rcuWriteGuardSet, rcuWriteGuardDeref, hag]

theorem rcu_write_guard_no_panic_witness :
    ((⟨some ⟨0, none⟩, 0⟩ : RcuWriteGuard).data.isSome = true ∧
      (rcuWriteGuardDeref ⟨some ⟨0, none⟩, 0⟩).isSome = true) ∧
    ((rcuWriteGuardSet ⟨some ⟨0, none⟩, 0⟩ 9).data.isSome = true ∧
      rcuWriteGuardDeref (rcuWriteGuardSet ⟨some ⟨0, none⟩, 0⟩ 9) = some 9) :=
  ⟨(rcu_write_guard_no_panic initRcuInner 1).1 ⟨some ⟨0, none⟩, 0⟩ rcuHeldState
      (by decide),
   (rcu_write_guard_no_panic initRcuInner 1).2.2 ⟨some ⟨0, none⟩, 0⟩ 9 rfl⟩

/-- Reader program counters. -/
def isReaderPC : WPC → Prop
  | .rBefore => True
  | .rLoadIdx => True
  | .rIncr => True
  | .rMkPtr => True
  | .rHold => True
  | .rDone => True
  | _ => False

/-- C2: a reclamation event can only be emitted by a thread at the writer's
cleanup step; readers never emit one; a writer reaches cleanup only through
the drain gate, which passes exactly when its remembered slot reads zero and
blocks (a no-op step) otherwise; and the cleanup step on a published
single-node chain frees that node exactly once and moves on. -/
theorem rcu_reclaim_once_by_writer {n : Nat} (s : Sys n) (u : Fin n) :
    (isReaderPC (s.th u).pc → ∀ a, LockEvent.freeNode a ∉ (stepEv s u).2) ∧
    (∀ a, LockEvent.freeNode a ∈ (stepEv s u).2 → (s.th u).pc = .wClean) ∧
    ((s.th u).pc = .wDrain → 0 < borrowCountGet s.sh ((s.th u).idx) →
      stepEv s u = (s, [])) ∧
    ((s.th u).pc ≠ .wClean → ((stepEv s u).1.th u).pc = .wClean →
      (s.th u).pc = .wDrain ∧ borrowCountGet s.sh ((s.th u).idx) = 0) ∧
    (∀ a nd, (s.th u).pc = .wClean → s.sh.next = some a →
      s.sh.heap[a]? = some nd → nd.nxt = none →
      (stepEv s u).2 = [LockEvent.freeNode a] ∧
      ((stepEv s u).1.th u).pc = .wClearW) := by
  refine ⟨?_, ?_, ?_, ?_, ?_⟩
  · intro hr a
    cases hpc : (s.th u).pc <;> rw [hpc] at hr <;>
      simp [isReaderPC] at hr <;> simp [stepEv, hpc]
  · intro a hmem
    cases hpc : (s.th u).pc
    case wBefore =>
      by_cases hz : (s.th u).rem = 0 <;> simp [stepEv, hpc, hz] at hmem
    case wAcquire =>
      by_cases hw : s.sh.amWriting <;> simp [stepEv, hpc, hw] at hmem
    case wDrain =>
      by_cases hc : borrowCountGet s.sh ((s.th u).idx) = 0 <;>
        simp [stepEv, hpc, hc] at hmem
    case wClean => rfl
    all_goals simp [stepEv, hpc] at hmem
  · intro hpc hc
    have hc' : ¬ borrowCountGet s.sh ((s.th u).idx) = 0 := by omega
    simp [stepEv, hpc, hc']
  · intro hne hafter
    cases hpc : (s.th u).pc
    case wDrain =>
      by_cases hc : borrowCountGet s.sh ((s.th u).idx) = 0
      · exact ⟨rfl, hc⟩
      · have hafter2 : ((stepOf s u).th u).pc = WPC.wClean := hafter
        rw [stepOf_wDrain_blocked s u hpc hc, hpc] at hafter2
        simp at hafter2
    case wClean => exact absurd hpc hne
    case wBefore =>
      by_cases hz : (s.th u).rem = 0 <;>
        simp [stepEv, hpc, hz, Function.update_same] at hafter
    case wAcquire =>
      by_cases hw : s.sh.amWriting <;>
        simp [stepEv, hpc, hw, Function.update_same] at hafter
    all_goals simp [stepEv, hpc, Function.update_same] at hafter
  · intro a nd hpc hnext hheap hnxt
    have h1 := stepOf_wClean s u hpc
    have h2 : (stepEv s u).2 = (cleanVersion s.sh).2 := by simp [stepEv, hpc]
    constructor
    · rw [h2, cleanVersion_pending s.sh a nd hnext hheap hnxt]
    · rw [show (stepEv s u).1 = stepOf s u from rfl, h1]
      simp [Function.update_same]

/-- A blocked drain: one writer at the spin with a straggling count. -/
def sysDrainBlocked : Sys 1 :=
  { sh := { initRcuInner with borrowCount0 := 1 },
    th := fun _ => { pc := .wDrain, rem := 1, w := 0, snap := none, idx := 0,
                     ptr := .inValue } }

/-- A writer about to clean a published single-node chain. -/
def sysCleanReady : Sys 1 :=
  { sh := { value := 0, next := some 0, amWriting := true, borrowCount0 := 0,
            borrowCount1 := 0, currentBorrowCountIndex := 1,
            heap := [{ val := 1, nxt := none, alive := true }] },
    th := fun _ => { pc := .wClean, rem := 1, w := 1, snap := none, idx := 0,
                     ptr := .inValue } }

theorem rcu_reclaim_once_by_writer_witness :
    (stepEv sysDrainBlocked 0 = (sysDrainBlocked, [])) ∧
    ((stepEv sysCleanReady 0).2 = [LockEvent.freeNode 0] ∧
      ((stepEv sysCleanReady 0).1.th 0).pc = WPC.wClearW) :=
  ⟨(rcu_reclaim_once_by_writer sysDrainBlocked 0).2.2.1 rfl (by decide),
   (rcu_reclaim_once_by_writer sysCleanReady 0).2.2.2.2 0 ⟨1, none, true⟩
     rfl rfl rfl rfl⟩

/-- A captured reference that points into the current arena. -/
def validPtr (s : RcuInner) : VPtr → Prop
  | .inValue => True
  | .inNode a => a < s.heap.length

theorem readPtr_eq_of (s s' : RcuInner) (hv : s'.value = s.value)
    (hh : s'.heap = s.heap) (p : VPtr) : readPtr s' p = readPtr s p := by
  cases p <;> simp [readPtr, nodeVal, hv, hh]

theorem nodeVal_append (heap : List HNode) (x : HNode) (a : Nat)
    (h : a < heap.length) : nodeVal (heap ++ [x]) a = nodeVal heap a := by
  unfold nodeVal
  rw [List.getElem?_append]
  simp [h]

/-- C4 (amended): a writer's drain step is a no-op while its remembered slot
still holds reader counts — cleanup cannot run past a grace-period-relevant
reader — and no step other than the cleanup step changes the value any
captured reference dereferences to. -/
theorem rcu_read_stability_graceful {n : Nat} (s : Sys n) (u : Fin n) :
    ((s.th u).pc = .wDrain → 0 < borrowCountGet s.sh ((s.th u).idx) →
      stepEv s u = (s, [])) ∧
    ((s.th u).pc ≠ .wClean → ∀ p, validPtr s.sh p →
      readPtr (stepOf s u).sh p = readPtr s.sh p) := by
  constructor
  · intro hpc hc
    have hc' : ¬ borrowCountGet s.sh ((s.th u).idx) = 0 := by omega
    simp [stepEv, hpc, hc']
  · intro hne p hp
    cases hpc : (s.th u).pc
    case wClean => exact absurd hpc hne
    case wBefore =>
      by_cases hz : (s.th u).rem = 0
      · rw [stepOf_wBefore_done s u hpc hz]
        exact readPtr_eq_of _ _ rfl rfl p
      · rw [stepOf_wBefore_go s u hpc hz]
        exact readPtr_eq_of _ _ rfl rfl p
    case wAcquire =>
      by_cases hw : s.sh.amWriting = true
      · rw [stepOf_wAcquire_blocked s u hpc hw]
      · rw [stepOf_wAcquire_free s u hpc (by simpa using hw)]
        exact readPtr_eq_of _ _ rfl rfl p
    case wLoadIdx =>
      rw [stepOf_wLoadIdx s u hpc]
      exact readPtr_eq_of _ _ rfl rfl p
    case wIncr =>
      rw [stepOf_wIncr s u hpc]
      exact readPtr_eq_of _ _ (by simp) (by simp) p
    case wMutate =>
      rw [stepOf_wMutate s u hpc]
      exact readPtr_eq_of _ _ rfl rfl p
    case wPublish =>
      rw [stepOf_wPublish s u hpc]
      cases p with
      | inValue => simp [readPtr]
      | inNode a =>
          simp only [readPtr, publishNext_heap]
          exact nodeVal_append s.sh.heap _ a hp
    case wToggle =>
      rw [stepOf_wToggle s u hpc]
      exact readPtr_eq_of _ _ rfl rfl p
    case wDecr =>
      rw [stepOf_wDecr s u hpc]
      exact readPtr_eq_of _ _ (by simp) (by simp) p
    case wClearW =>
      rw [stepOf_wClearW s u hpc]
      exact readPtr_eq_of _ _ rfl rfl p
    case wDone => rw [stepOf_wDone s u hpc]
    case rBefore =>
      rw [stepOf_rBefore s u hpc]
      exact readPtr_eq_of _ _ rfl rfl p
    case rLoadIdx =>
      rw [stepOf_rLoadIdx s u hpc]
      exact readPtr_eq_of _ _ rfl rfl p
    case rIncr =>
      rw [stepOf_rIncr s u hpc]
      exact readPtr_eq_of _ _ (by simp) (by simp) p
    case rMkPtr =>
      rw [stepOf_rMkPtr s u hpc]
      exact readPtr_eq_of _ _ rfl rfl p
    case rHold =>
      rw [stepOf_rHold s u hpc]
      exact readPtr_eq_of _ _ (by simp) (by simp) p
    case rDone => rw [stepOf_rDone s u hpc]
    case wDrain =>
      by_cases hc : borrowCountGet s.sh ((s.th u).idx) = 0
      · rw [stepOf_wDrain_pass s u hpc hc]
        exact readPtr_eq_of _ _ rfl rfl p
      · rw [stepOf_wDrain_blocked s u hpc hc]

theorem rcu_read_stability_graceful_witness :
    stepEv sysDrainBlocked 0 = (sysDrainBlocked, []) ∧
    readPtr (stepOf sysDrainBlocked 0).sh VPtr.inValue
      = readPtr sysDrainBlocked.sh VPtr.inValue :=
  ⟨(rcu_read_stability_graceful sysDrainBlocked 0).1 rfl (by decide),
   (rcu_read_stability_graceful sysDrainBlocked 0).2 (by decide) VPtr.inValue
     trivial⟩

/-- One writer (one iteration) and one reader over `RcuLock::new 0`. -/
def sysC4 : Sys 2 :=
  { sh := initRcuInner,
    th := fun u => if u = 0 then initWriter 1 else initReader }

/-- The writer runs up to its grace-period spin (through publish, toggle and
its own decrement); then the reader acquires. -/
def schedC4a : List (Fin 2) := [0, 0, 0, 0, 0, 0, 0, 0, 1, 1, 1, 1]

/-- ... after which the writer passes the drain, cleans and finishes. -/
def schedC4b : List (Fin 2) := schedC4a ++ [0, 0, 0]

/-- C4 counterexample: a ReadGuard acquired between the writer's index toggle
and its cleanup dereferences to 1 at acquisition, but after the intervening
write completes the same captured reference dereferences to 0 — and the node
it points into has been freed while the guard is still held. -/
theorem rcu_read_stability_cex :
    ((run sysC4 schedC4a).th 1).pc = WPC.rHold ∧
    ((run sysC4 schedC4a).th 1).ptr = VPtr.inNode 0 ∧
    readPtr (run sysC4 schedC4a).sh ((run sysC4 schedC4a).th 1).ptr = 1 ∧
    ((run sysC4 schedC4b).th 1).pc = WPC.rHold ∧
    ((run sysC4 schedC4b).th 1).ptr = VPtr.inNode 0 ∧
    readPtr (run sysC4 schedC4b).sh ((run sysC4 schedC4b).th 1).ptr = 0 ∧
    ((run sysC4 schedC4b).sh.heap[0]?).map HNode.alive = some false ∧
    ((run sysC4 schedC4b).th 0).pc = WPC.wBefore ∧
    ((run sysC4 schedC4b).th 0).rem = 0 := by
  decide

/-- C8: every acquisition path calls `before_lock` exactly once, every
release path calls `after_lock` exactly once, and every failed `try_*` call
emits `before_lock` then `after_lock` before returning none — for the spin
mutex, the ticket mutex, and the RCU lock alike. -/
theorem lock_action_symmetry :
    (∀ s : SpinState,
      ((spinLock s).2.count LockEvent.beforeLock = 1 ∧
        (spinLock s).2.count LockEvent.afterLock = 0) ∧
      (spinGuardDrop s).2 = [LockEvent.afterLock] ∧
      ((spinTryLock s).1 = none →
        (spinTryLock s).2 = [LockEvent.beforeLock, LockEvent.afterLock]) ∧
      ((spinTryLock s).1.isSome = true →
        (spinTryLock s).2 = [LockEvent.beforeLock])) ∧
    (∀ s : TicketState,
      ((ticketLock s).2.count LockEvent.beforeLock = 1 ∧
        (ticketLock s).2.count LockEvent.afterLock = 0) ∧
      (∀ t, (ticketGuardDrop s t).2 = [LockEvent.afterLock]) ∧
      ((ticketTryLock s).1 = none →
        (ticketTryLock s).2 = [LockEvent.beforeLock, LockEvent.afterLock]) ∧
      ((ticketTryLock s).1.isSome = true →
        (ticketTryLock s).2 = [LockEvent.beforeLock])) ∧
    (∀ s : RcuInner,
      (rcuRead s).2.2 = [LockEvent.beforeLock] ∧
      (∀ g, (rcuReadGuardDrop s g).2 = [LockEvent.afterLock]) ∧
      (∀ fuel, (rcuWrite fuel s).2 = [LockEvent.beforeLock]) ∧
      ((rcuTryWrite s).1 = none →
        (rcuTryWrite s).2.2 = [LockEvent.beforeLock, LockEvent.afterLock]) ∧
      ((rcuTryWrite s).1.isSome = true →
        (rcuTryWrite s).2.2 = [LockEvent.beforeLock]) ∧
      (∀ g s' ev, rcuWriteGuardDrop s g = some (s', ev) →
        ev.count LockEvent.beforeLock = 0 ∧ ev.count LockEvent.afterLock = 1)) := by
  refine ⟨?_, ?_, ?_⟩
  · intro s
    refine ⟨?_, rfl, ?_, ?_⟩
    · by_cases h : s.locked <;> simp [spinLock, h]
    · intro hn
      by_cases h : s.locked
      · simp [spinTryLock, h]
      · simp [spinTryLock, h] at hn
    · intro hs
      by_cases h : s.locked
      · simp [spinTryLock, h] at hs
      · simp [spinTryLock, h]
  · intro s
    refine ⟨?_, fun t => rfl, ?_, ?_⟩
    · by_cases h : s.nextServing = s.nextTicket <;> simp [ticketLock, h]
    · intro hn
      by_cases h : s.nextServing = s.nextTicket
      · simp [ticketTryLock, h] at hn
      · simp [ticketTryLock, h]
    · intro hs
      by_cases h : s.nextServing = s.nextTicket
      · simp [ticketTryLock, h]
      · simp [ticketTryLock, h] at hs
  · intro s
    refine ⟨rfl, fun g => rfl, fun fuel => rfl, ?_, ?_, ?_⟩
    · intro hn
      by_cases h : s.amWriting
      · simp [rcuTryWrite, tryUpdate, h]
      · simp [rcuTryWrite, tryUpdate, h] at hn
    · intro hs
      by_cases h : s.amWriting
      · simp [rcuTryWrite, tryUpdate, h] at hs
      · simp [rcuTryWrite, tryUpdate, h]
    · intro g s' ev hdrop
      have hs := writeGuardDrop_success s g s' ev hdrop
      exact ⟨hs.2.2.2.1, hs.2.2.2.2⟩

theorem lock_action_symmetry_witness :
    (spinTryLock ⟨true, 0⟩).1 = none ∧
    (spinTryLock ⟨true, 0⟩).2 = [LockEvent.beforeLock, LockEvent.afterLock] ∧
    (ticketTryLock ⟨3, 2, 0⟩).1 = none ∧
    (ticketTryLock ⟨3, 2, 0⟩).2 = [LockEvent.beforeLock, LockEvent.afterLock] ∧
    (rcuTryWrite rcuHeldState).2.2 = [LockEvent.beforeLock, LockEvent.afterLock] :=
  ⟨by decide, (lock_action_symmetry.1 ⟨true, 0⟩).2.2.1 (by decide),
   by decide, (lock_action_symmetry.2.1 ⟨3, 2, 0⟩).2.2.1 (by decide),
   (lock_action_symmetry.2.2 rcuHeldState).2.2.2.1 (by decide)⟩

/-- Reachable ticket-mutex states keep every claimed ticket below
`next_ticket`, and `next_serving` never overtakes `next_ticket`. -/
theorem ticketReach_inv (s : TicketSys) (h : TicketReach s) :
    (∀ t ∈ s.claimed, t < s.nextTicket) ∧ s.nextServing ≤ s.nextTicket := by
  induction h with
  | init =>
      refine ⟨?_, Nat.le_refl 0⟩
      intro t ht
      simp at ht
  | lockClaim s hr ih =>
      obtain ⟨hc, hs⟩ := ih
      dsimp only
      refine ⟨?_, by omega⟩
      intro t ht
      rcases List.mem_cons.mp ht with h1 | h1
      · omega
      · exact Nat.lt_succ_of_lt (hc t h1)
  | tryLockSucc s hr heq ih =>
      obtain ⟨hc, hs⟩ := ih
      dsimp only
      refine ⟨?_, by omega⟩
      intro t ht
      rcases List.mem_cons.mp ht with h1 | h1
      · omega
      · exact Nat.lt_succ_of_lt (hc t h1)
  | tryLockFail s hr hne ih => exact ih
  | guardRelease s t hr ht heq ih =>
      obtain ⟨hc, hs⟩ := ih
      dsimp only
      refine ⟨?_, ?_⟩
      · intro t2 ht2
        exact hc t2 (List.mem_of_mem_erase ht2)
      · have := hc t ht
        omega

/-- C9: in every state reachable from `TicketMutex::new` by lock claims,
`try_lock` attempts and misuse-free guard releases, `next_serving` never
exceeds `next_ticket`. -/
theorem ticket_serving_le_next (s : TicketSys) (h : TicketReach s) :
    s.nextServing ≤ s.nextTicket :=
  (ticketReach_inv s h).2

theorem ticket_serving_le_next_witness :
    (⟨1, 1, []⟩ : TicketSys).nextServing ≤ (⟨1, 1, []⟩ : TicketSys).nextTicket :=
  ticket_serving_le_next ⟨1, 1, []⟩
    (TicketReach.guardRelease ⟨1, 0, [0]⟩ 0
      (TicketReach.lockClaim ⟨0, 0, []⟩ TicketReach.init)
      (by decide) rfl)
